import Mathlib

/-!
# Verification of the node-resource-pool core

This file gives a shallow embedding of the resource-pool implementation
(`lib/pool.js` of imkira/node-resource-pool) and proves properties of it.

Modelling choices:

* JavaScript numbers that can be `NaN` or come from a missing (`undefined`)
  option are modelled by `JsNum`; timestamps are integers (milliseconds).
  `jsAdd`, `jsOr`, `jsLtB`, `jsGtB`, `jsGeB`, `jsIsNaN` mirror the JS
  semantics actually exercised by the source (`x + undefined` is `NaN`,
  comparisons against `NaN`/`undefined` are `false`, `0` is falsy).
* The pool is single-threaded and event driven; every externally triggered
  entry point (public API call, factory callback, timer tick) is one atomic
  transition `step` on `PoolState`.  Reachable states are the quiescent
  points between such transitions.
* Ghost fields (`serveLog`, `acquiredIds`, `nextRequestId`, `createCalls`,
  `drainWaiters`, `drainDoneCount`, `drainEvents`) record observable events:
  they are write-only bookkeeping and influence no branch of the embedded
  code.  `serveLog` records every `_serveRequest` call: the request id, the
  error code (or `none` for success with a resource) and whether the request
  carried a completion callback, so "the completion fired" is `hasDone`
  entries in the log.
-/

namespace RPool

/-- JavaScript numeric value as used by the pool: a genuine (integer) number,
`NaN`, or `undefined` (an absent option / absent field reads as `undefined`). -/
inductive JsNum where
  | num (n : ℤ)
  | nan
  | undef
deriving DecidableEq

/-- JS `+` on the values the pool adds: number + number is a number, any
operand that is `NaN` or `undefined` yields `NaN`. -/
def jsAdd : JsNum → JsNum → JsNum
  | JsNum.num a, JsNum.num b => JsNum.num (a + b)
  | _, _ => JsNum.nan

/-- JS truthiness for `JsNum`: `0`, `NaN` and `undefined` are falsy. -/
def jsTruthy : JsNum → Bool
  | JsNum.num n => decide (n ≠ 0)
  | _ => false

/-- JS `a || b` on numbers: `a` if truthy, else `b`. -/
def jsOr (a b : JsNum) : JsNum := if jsTruthy a then a else b

/-- JS `<`: false whenever either side is `NaN`/`undefined`. -/
def jsLtB : JsNum → JsNum → Bool
  | JsNum.num a, JsNum.num b => decide (a < b)
  | _, _ => false

/-- JS `>`: false whenever either side is `NaN`/`undefined`. -/
def jsGtB : JsNum → JsNum → Bool
  | JsNum.num a, JsNum.num b => decide (b < a)
  | _, _ => false

/-- JS `>=`: false whenever either side is `NaN`/`undefined`. -/
def jsGeB : JsNum → JsNum → Bool
  | JsNum.num a, JsNum.num b => decide (b ≤ a)
  | _, _ => false

/-- JS `isNaN` on the values the pool tests (`isNaN(undefined)` is true). -/
def jsIsNaN : JsNum → Bool
  | JsNum.num _ => false
  | _ => true

/-- The integer under a `JsNum`, `0` otherwise (used only under guards that
established the value is a number). -/
def jsNumVal : JsNum → ℤ
  | JsNum.num n => n
  | _ => 0

/-- Request-level error codes (`ERRORS` table of the source). -/
inductive ErrCode where
  | acquireDuringDraining
  | acquireTimeoutError
  | acquireAbortedByDrain
  | maxRequestsLimit
deriving DecidableEq

/-- A pending acquire request (`_createRequest`).  `id` is a ghost identity
(allocation order = enqueue order); `hasDone` records whether a completion
callback was supplied (`acquire` passes one, `acquireSync` does not).  The
`originalCall` stack capture is pure diagnostics and is not modelled. -/
structure Request where
  id : ℕ
  createdAt : ℤ
  acquireTimeoutAt : JsNum
  hasDone : Bool
deriving DecidableEq

/-- A resource record as stored by the pool.  `request` is the back-pointer
set while lent (`resource.request = request`), `none` models the field being
absent/deleted. -/
structure Resource where
  value : ℕ
  createdAt : ℤ
  expiresAt : JsNum
  idleAt : JsNum
  request : Option ℕ
deriving DecidableEq

/-- Ghost record of one `_serveRequest` invocation: which request, with which
error code (`none` = served successfully with a resource), and whether the
request had a completion callback (in which case `request.done` fired). -/
structure ServeRec where
  rid : ℕ
  outcome : Option ErrCode
  hasDone : Bool
deriving DecidableEq

/-- Pool configuration, immutable after construction.  `min`/`max` carry the
constructor defaults (`options.min || 0`, `options.max || 1024`) already
applied; the optional numeric limits stay raw `JsNum` (`undef` = not
configured).  `validate`/`compare` are the caller-supplied (or default)
callbacks; `hasBackoff` says whether a `backoff` supplier was given. -/
structure Config where
  min : ℤ
  max : ℤ
  maxCreating : JsNum
  maxRequests : JsNum
  acquireTimeout : JsNum
  idleTimeout : JsNum
  idleCheckInterval : ℤ
  expireTimeout : JsNum
  expireCheckInterval : ℤ
  validate : Resource → Bool
  compare : ℕ → ℕ → Bool
  hasBackoff : Bool

/-- The pool state at a quiescent point.  Fields up to `isMaintenanceScheduled`
are the source's own fields; the rest are ghost observers (see the file
header). `backoffPendingCount` counts creations whose failure decrement is
parked behind a running backoff timer (their slot still counts in
`creatingResourceCount`, as in the source). -/
structure PoolState where
  cfg : Config
  agingRequests : List Request
  agelessRequests : List Request
  freeResources : List Resource
  lentResources : List Resource
  creatingResourceCount : ℕ
  destroyingResourceCount : ℕ
  lastIdleCheckAt : ℤ
  lastExpireCheckAt : ℤ
  isDraining : Bool
  isMaintaining : Bool
  isMaintenanceScheduled : Bool
  periodicOn : Bool
  backoffPendingCount : ℕ
  nextRequestId : ℕ
  acquiredIds : List ℕ
  serveLog : List ServeRec
  createCalls : ℕ
  drainWaiters : ℕ
  drainDoneCount : ℕ
  drainEvents : ℕ

/-- `_countResources`: total population. -/
def countResources (s : PoolState) : ℕ :=
  s.freeResources.length + s.lentResources.length +
    s.creatingResourceCount + s.destroyingResourceCount

/-- Ghost log entry for a `_serveRequest` call on request `r`. -/
def mkServeRec (r : Request) (e : Option ErrCode) : ServeRec :=
  ⟨r.id, e, r.hasDone⟩

/-- `_serveRequest`: with an error code it reports the error to the request's
completion; otherwise it attaches the request to the resource, moves the
resource to the lent list and reports success.  (The `none`/`none` case is
never taken by any caller.) -/
def serveRequest (req : Request) (errCode : Option ErrCode) (res : Option Resource)
    (s : PoolState) : PoolState :=
  match errCode with
  | some _ => { s with serveLog := s.serveLog ++ [mkServeRec req errCode] }
  | none =>
    match res with
    | some r =>
      { s with
        lentResources := s.lentResources ++ [{ r with request := some req.id }],
        serveLog := s.serveLog ++ [mkServeRec req none] }
    | none => s

/-- `_createRequest`: the deadline is `now + (options.timeout || acquireTimeout)`
(JS truthiness: a `0` or missing per-request timeout falls back to the pool
default; if both are unset the sum is `NaN`). -/
def createRequest (cfg : Config) (now : ℤ) (timeoutOpt : JsNum) (hasDone : Bool)
    (id : ℕ) : Request :=
  { id := id, createdAt := now,
    acquireTimeoutAt := jsAdd (JsNum.num now) (jsOr timeoutOpt cfg.acquireTimeout),
    hasDone := hasDone }

/-- Core of `_insertRequestByAcquireTimeout` on the reversed aging list: the
source scans indices from the right while the new deadline is strictly below
the neighbour's and splices there; on the reversed list that is: skip every
element whose deadline is strictly above the new one, then place the request. -/
def insertAgingRev (req : Request) : List Request → List Request
  | [] => [req]
  | x :: xs =>
    if jsLtB req.acquireTimeoutAt x.acquireTimeoutAt then x :: insertAgingRev req xs
    else req :: x :: xs

/-- `_insertRequestByAcquireTimeout`: `NaN` deadlines go to the ageless queue
(appended), numeric deadlines are spliced into the aging queue keeping it
sorted, after any equal deadlines. -/
def insertRequestByAcquireTimeout (req : Request) (s : PoolState) : PoolState :=
  if jsIsNaN req.acquireTimeoutAt then
    { s with agelessRequests := s.agelessRequests ++ [req] }
  else
    { s with agingRequests := (insertAgingRev req s.agingRequests.reverse).reverse }

/-- `_scheduleMaintainance`: debounced request for a one-shot maintenance. -/
def scheduleMaintainance (s : PoolState) : PoolState :=
  if s.isMaintenanceScheduled = true then s
  else { s with isMaintenanceScheduled := true }

/-- `_enqueueRequest`: reject during draining, reject over the `maxRequests`
cap (a JS `>=` against a possibly-undefined cap: false when the cap is not
configured), otherwise insert and schedule maintenance. -/
def enqueueRequest (req : Request) (s : PoolState) : PoolState :=
  if s.isDraining = true then
    serveRequest req (some ErrCode.acquireDuringDraining) none s
  else if jsGeB (JsNum.num ((s.agelessRequests.length : ℤ) + (s.agingRequests.length : ℤ)))
      s.cfg.maxRequests then
    serveRequest req (some ErrCode.maxRequestsLimit) none s
  else
    scheduleMaintainance (insertRequestByAcquireTimeout req s)

/-- `acquire`: create a request (with a completion callback) and enqueue it. -/
def acquireStep (now : ℤ) (timeoutOpt : JsNum) (s : PoolState) : PoolState :=
  let req := createRequest s.cfg now timeoutOpt true s.nextRequestId
  enqueueRequest req
    { s with nextRequestId := s.nextRequestId + 1,
             acquiredIds := s.acquiredIds ++ [s.nextRequestId] }

/-- `_destroyResource`: hand the record to the factory's destroy callback;
synchronously this only bumps the destroying counter (the decrement arrives
later as a `destroyCompleted` transition). -/
def destroyResource (s : PoolState) : PoolState :=
  { s with destroyingResourceCount := s.destroyingResourceCount + 1 }

/-- Helper for `_nextFreeResource`: shift records off the front, destroying
invalid ones, until a valid record is found or the list is exhausted.
Returns (found record, remaining free list, number destroyed). -/
def nextFreeAux (validate : Resource → Bool) :
    List Resource → Option Resource × List Resource × ℕ
  | [] => (none, [], 0)
  | r :: rest =>
    if validate r then (some r, rest, 0)
    else
      let t := nextFreeAux validate rest
      (t.1, t.2.1, t.2.2 + 1)

/-- `_nextFreeResource` as a state transformer. -/
def nextFreeResource (s : PoolState) : Option Resource × PoolState :=
  let t := nextFreeAux s.cfg.validate s.freeResources
  (t.1, { s with freeResources := t.2.1,
                 destroyingResourceCount := s.destroyingResourceCount + t.2.2 })

/-- `acquireSync`: pop one immediately usable free resource; if draining,
fail the synthetic (callback-less) request with the drain error and return
nothing, else serve it and return its value. -/
def acquireSyncStep (now : ℤ) (timeoutOpt : JsNum) (s : PoolState) :
    Option ℕ × PoolState :=
  match nextFreeResource s with
  | (none, s1) => (none, s1)
  | (some r, s1) =>
    let req := createRequest s1.cfg now timeoutOpt false s1.nextRequestId
    let s2 := { s1 with nextRequestId := s1.nextRequestId + 1 }
    if s2.isDraining = true then
      (none, serveRequest req (some ErrCode.acquireDuringDraining) none s2)
    else
      (some r.value, serveRequest req none (some r) s2)

/-- `_storeResource`: if not draining and the record validates, clear the
request back-pointer, stamp `idleAt`, append to the free list and schedule
maintenance; otherwise destroy the record. -/
def storeResource (now : ℤ) (r : Resource) (s : PoolState) : PoolState :=
  if s.isDraining = false ∧ s.cfg.validate r = true then
    scheduleMaintainance
      { s with freeResources :=
          s.freeResources ++ [{ r with request := none, idleAt := JsNum.num now }] }
  else
    destroyResource s

/-- Helper for `_getResourceIndex` + `splice`: the source scans from the last
index backwards, so the match closest to the tail wins; this returns that
record and the list without it. -/
def removeLastMatching (p : Resource → Bool) :
    List Resource → Option (Resource × List Resource)
  | [] => none
  | r :: rest =>
    match removeLastMatching p rest with
    | some (x, rest') => some (x, r :: rest')
    | none => if p r then some (r, rest) else none

/-- `release`: locate the value among lent resources (newest match first),
remove it and run the storage check. -/
def releaseStep (now : ℤ) (v : ℕ) (s : PoolState) : PoolState :=
  match removeLastMatching (fun r => s.cfg.compare r.value v) s.lentResources with
  | none => s
  | some (r, lent') => storeResource now r { s with lentResources := lent' }

/-- `destroy`: search lent then free (newest match first); destroy if found,
silently do nothing otherwise. -/
def destroyStep (v : ℕ) (s : PoolState) : PoolState :=
  match removeLastMatching (fun r => s.cfg.compare r.value v) s.lentResources with
  | some (_, lent') => destroyResource { s with lentResources := lent' }
  | none =>
    match removeLastMatching (fun r => s.cfg.compare r.value v) s.freeResources with
    | some (_, free') => destroyResource { s with freeResources := free' }
    | none => s

/-- The record built in `_createResource`'s success callback:
`{value, createdAt: now, expiresAt: now + expireTimeout}` — note that the
`expiresAt` field is always assigned; with no configured `expireTimeout` the
sum is `NaN`.  The `idleAt` and `request` fields are not in the literal
(absent). -/
def newResourceRecord (cfg : Config) (now : ℤ) (v : ℕ) : Resource :=
  { value := v, createdAt := now,
    expiresAt := jsAdd (JsNum.num now) cfg.expireTimeout,
    idleAt := JsNum.undef, request := none }

/-- Factory `create` callback arriving with success: decrement the creating
count and run the storage check on the fresh record.  (The `called` flag of
the source makes the callback at-most-once; a stray callback with no pending
creation cannot occur, modelled as a no-op.) -/
def createSucceededStep (now : ℤ) (v : ℕ) (s : PoolState) : PoolState :=
  if s.creatingResourceCount = 0 then s
  else
    storeResource now (newResourceRecord s.cfg now v)
      { s with creatingResourceCount := s.creatingResourceCount - 1 }

/-- Factory `create` callback arriving with an error: with a backoff supplier
the decrement of the creating count is deferred behind the backoff timer
(slot stays held), otherwise it happens immediately. -/
def createFailedStep (s : PoolState) : PoolState :=
  if s.creatingResourceCount = 0 then s
  else if s.cfg.hasBackoff then
    { s with backoffPendingCount := s.backoffPendingCount + 1 }
  else
    { s with creatingResourceCount := s.creatingResourceCount - 1 }

/-- A backoff timer firing: the deferred creating-count decrement. -/
def backoffFiredStep (s : PoolState) : PoolState :=
  if s.backoffPendingCount = 0 then s
  else
    { s with backoffPendingCount := s.backoffPendingCount - 1,
             creatingResourceCount := s.creatingResourceCount - 1 }

/-- Factory `destroy` callback completing: decrement the destroying count. -/
def destroyCompletedStep (s : PoolState) : PoolState :=
  if s.destroyingResourceCount = 0 then s
  else { s with destroyingResourceCount := s.destroyingResourceCount - 1 }

/-- The reap predicate of `_destroyDeadResources`: `now > resource[key] + timeout`. -/
def deadPred (key : Resource → JsNum) (timeout : JsNum) (now : ℤ) (r : Resource) : Bool :=
  jsGtB (JsNum.num now) (jsAdd (key r) timeout)

/-- `_destroyDeadResources`: collect every free record past its lifetime,
remove them from the free list (survivors keep their order) and destroy each
(the source splices while iterating backwards and then destroys the collected
records; the net state effect is this filter). -/
def destroyDeadResources (key : Resource → JsNum) (timeout : JsNum) (now : ℤ)
    (s : PoolState) : PoolState :=
  let dead := s.freeResources.filter (fun r => deadPred key timeout now r)
  { s with
    freeResources := s.freeResources.filter (fun r => !(deadPred key timeout now r)),
    destroyingResourceCount := s.destroyingResourceCount + dead.length }

/-- `_destroyIdleResources`: idle sweep, eligible when `idleTimeout > 0` and
the check interval has elapsed. -/
def destroyIdleResources (now : ℤ) (s : PoolState) : PoolState :=
  if jsGtB s.cfg.idleTimeout (JsNum.num 0) = true ∧
      s.lastIdleCheckAt + s.cfg.idleCheckInterval < now then
    { destroyDeadResources (fun r => r.idleAt) s.cfg.idleTimeout now s with
      lastIdleCheckAt := now }
  else s

/-- `_destroyExpiredResources`: expiry sweep (timeout argument `0`). -/
def destroyExpiredResources (now : ℤ) (s : PoolState) : PoolState :=
  if jsGtB s.cfg.expireTimeout (JsNum.num 0) = true ∧
      s.lastExpireCheckAt + s.cfg.expireCheckInterval < now then
    { destroyDeadResources (fun r => r.expiresAt) (JsNum.num 0) now s with
      lastExpireCheckAt := now }
  else s

/-- `_serveAgingRequests`: repeatedly examine the head of the aging queue;
a head past its deadline is dequeued and failed with the timeout error;
otherwise a valid free resource is sought — none stops the loop, one serves
the dequeued head. -/
def serveAgingRequests (now : ℤ) (s : PoolState) : PoolState :=
  match h : s.agingRequests with
  | [] => s
  | req :: rest =>
    if jsGtB (JsNum.num now) req.acquireTimeoutAt then
      serveAgingRequests now
        (serveRequest req (some ErrCode.acquireTimeoutError) none
          { s with agingRequests := rest })
    else
      match nextFreeResource s with
      | (none, s1) => s1
      | (some r, s1) =>
        serveAgingRequests now
          (serveRequest req none (some r) { s1 with agingRequests := rest })
termination_by s.agingRequests.length
decreasing_by
  all_goals simp [serveRequest, h]

/-- `_serveAgelessRequests`: while requests wait, obtain a valid free resource
(stop when none) and serve the dequeued head with it, FIFO. -/
def serveAgelessRequests (s : PoolState) : PoolState :=
  match h : s.agelessRequests with
  | [] => s
  | req :: rest =>
    match nextFreeResource s with
    | (none, s1) => s1
    | (some r, s1) =>
      serveAgelessRequests (serveRequest req none (some r) { s1 with agelessRequests := rest })
termination_by s.agelessRequests.length
decreasing_by
  simp [serveRequest, h]

/-- Iteration count of the `while (extra-- > 0)` creation loop. -/
def createLoopCount (extra : ℤ) : ℕ :=
  if h : 0 < extra then createLoopCount (extra - 1) + 1 else 0
termination_by extra.toNat
decreasing_by
  omega

/-- The `extra` computation of `_createResources`, in source order:
start from the number of waiting requests, meet the floor, respect the cap,
subtract in-flight creations, and apply the burst cap when `maxCreating > 0`
(a JS `>` that is false for an unconfigured cap). -/
def createResourcesExtra (s : PoolState) : ℤ :=
  let count : ℤ := (countResources s : ℤ)
  let extra0 : ℤ := ((s.agelessRequests.length + s.agingRequests.length : ℕ) : ℤ)
  let extra1 := if count < s.cfg.min ∧ extra0 < s.cfg.min then s.cfg.min else extra0
  let extra2 := if s.cfg.max < count + extra1 then s.cfg.max - count else extra1
  let extra3 := extra2 - (s.creatingResourceCount : ℤ)
  match s.cfg.maxCreating with
  | JsNum.num m =>
    if 0 < m then
      let available := m - (s.creatingResourceCount : ℤ)
      if available < extra3 then available else extra3
    else extra3
  | _ => extra3

/-- `_createResources`: issue one `_createResource` call per loop iteration;
each call increments the creating count (and the ghost call counter). -/
def createResources (s : PoolState) : PoolState :=
  let n := createLoopCount (createResourcesExtra s)
  { s with creatingResourceCount := s.creatingResourceCount + n,
           createCalls := s.createCalls + n }

/-- `_maintain`: skipped entirely while draining or re-entrantly; otherwise
reap expired, reap idle, serve aging, serve ageless, top up creations. -/
def maintain (now : ℤ) (s : PoolState) : PoolState :=
  if s.isDraining = true ∨ s.isMaintaining = true then s
  else
    let s1 := { s with isMaintaining := true }
    let s2 := destroyExpiredResources now s1
    let s3 := destroyIdleResources now s2
    let s4 := serveAgingRequests now s3
    let s5 := serveAgelessRequests s4
    let s6 := createResources s5
    { s6 with isMaintaining := false }

/-- `_scheduledMaintain`: run a maintenance pass and clear the debounce flag. -/
def scheduledMaintainStep (now : ℤ) (s : PoolState) : PoolState :=
  { maintain now s with isMaintenanceScheduled := false }

/-- `_waitDrain` on its first check (inlined at the end of `drain`): when the
population is zero, emit the `drain` event and fire the completion; otherwise
park the completion for the next tick. -/
def waitDrain (s : PoolState) : PoolState :=
  if countResources s = 0 then
    { s with drainEvents := s.drainEvents + 1, drainDoneCount := s.drainDoneCount + 1 }
  else
    { s with drainWaiters := s.drainWaiters + 1 }

/-- Serve a batch of requests with the drain-abort error (the source pops the
queue from the tail, so the batch is the reversed queue). -/
def serveAllAborted : List Request → PoolState → PoolState
  | [], s => s
  | r :: rest, s =>
    serveAllAborted rest (serveRequest r (some ErrCode.acquireAbortedByDrain) none s)

/-- `drain`: on the first call set the draining flag, stop the periodic timer,
cancel every queued request (tail-first) with the drain-abort error and
destroy every free resource; every call then waits for the population to
reach zero. -/
def drainStep (s : PoolState) : PoolState :=
  let s1 :=
    if s.isDraining = false then
      let sA := { s with isDraining := true, periodicOn := false }
      let sB := serveAllAborted sA.agingRequests.reverse { sA with agingRequests := [] }
      let sC := serveAllAborted sB.agelessRequests.reverse { sB with agelessRequests := [] }
      { sC with
        destroyingResourceCount := sC.destroyingResourceCount + sC.freeResources.length,
        freeResources := [] }
    else s
  waitDrain s1

/-- One scheduler tick of the pending `_waitDrain` chains: each parked waiter
re-checks the population; at zero every waiter emits the `drain` event and
fires its completion, otherwise they re-park (no net change). -/
def waitDrainTickStep (s : PoolState) : PoolState :=
  if countResources s = 0 then
    { s with drainEvents := s.drainEvents + s.drainWaiters,
             drainDoneCount := s.drainDoneCount + s.drainWaiters,
             drainWaiters := 0 }
  else s

/-- `setMaintenanceInterval`: restart the periodic timer (the interval length
itself only affects timing, which transitions carry explicitly). -/
def setMaintenanceIntervalStep (s : PoolState) : PoolState :=
  { s with periodicOn := true }

/-- One externally triggered entry into the pool's serialized context. -/
inductive Op where
  | acquire (now : ℤ) (timeoutOpt : JsNum)
  | acquireSync (now : ℤ) (timeoutOpt : JsNum)
  | release (now : ℤ) (v : ℕ)
  | destroyOp (v : ℕ)
  | maintainTick (now : ℤ)
  | scheduledMaintain (now : ℤ)
  | drain
  | createSucceeded (now : ℤ) (v : ℕ)
  | createFailed
  | backoffFired
  | destroyCompleted
  | waitDrainTick
  | setMaintenanceInterval

/-- The transition function: each `Op` is one atomic re-entry into the pool. -/
def step : Op → PoolState → PoolState
  | Op.acquire now tmo, s => acquireStep now tmo s
  | Op.acquireSync now tmo, s => (acquireSyncStep now tmo s).2
  | Op.release now v, s => releaseStep now v s
  | Op.destroyOp v, s => destroyStep v s
  | Op.maintainTick now, s => maintain now s
  | Op.scheduledMaintain now, s => scheduledMaintainStep now s
  | Op.drain, s => drainStep s
  | Op.createSucceeded now v, s => createSucceededStep now v s
  | Op.createFailed, s => createFailedStep s
  | Op.backoffFired, s => backoffFiredStep s
  | Op.destroyCompleted, s => destroyCompletedStep s
  | Op.waitDrainTick, s => waitDrainTickStep s
  | Op.setMaintenanceInterval, s => setMaintenanceIntervalStep s

/-- Run a sequence of transitions. -/
def runOps (ops : List Op) (s : PoolState) : PoolState :=
  ops.foldl (fun st op => step op st) s

/-- The state right after the constructor body: empty queues and lists, zero
counters, periodic maintenance armed. -/
def initialFields (cfg : Config) : PoolState :=
  { cfg := cfg, agingRequests := [], agelessRequests := [],
    freeResources := [], lentResources := [],
    creatingResourceCount := 0, destroyingResourceCount := 0,
    lastIdleCheckAt := 0, lastExpireCheckAt := 0,
    isDraining := false, isMaintaining := false, isMaintenanceScheduled := false,
    periodicOn := true, backoffPendingCount := 0,
    nextRequestId := 0, acquiredIds := [], serveLog := [],
    createCalls := 0, drainWaiters := 0, drainDoneCount := 0, drainEvents := 0 }

/-- The constructor ends with an inline `_maintain()` call. -/
def initPool (cfg : Config) (now0 : ℤ) : PoolState :=
  maintain now0 (initialFields cfg)

/-- States reachable from a freshly constructed pool by any sequence of
transitions (with arbitrary clock readings). -/
def Reachable (cfg : Config) (s : PoolState) : Prop :=
  ∃ now0 ops, runOps ops (initPool cfg now0) = s

/-- Occurrences of request `id` in a queue. -/
def idCount (l : List Request) (id : ℕ) : ℕ :=
  (l.filter (fun r => r.id == id)).length

/-- How many times request `id` is queued (aging plus ageless). -/
def queuedCount (s : PoolState) (id : ℕ) : ℕ :=
  idCount s.agingRequests id + idCount s.agelessRequests id

/-- How many times request `id`'s completion callback has fired: one per
`_serveRequest` on a request that carried a callback. -/
def doneCount (log : List ServeRec) (id : ℕ) : ℕ :=
  (log.filter (fun e => e.rid == id && e.hasDone)).length

/-- The log entry produced for the head of the aging queue during a
maintenance pass: a timeout error when `now` is past its deadline, success
otherwise. -/
def agingServeRec (now : ℤ) (r : Request) : ServeRec :=
  ⟨r.id, if jsGtB (JsNum.num now) r.acquireTimeoutAt then some ErrCode.acquireTimeoutError
         else none, r.hasDone⟩

/-- The spec's top-up formula, written from its words: `count = total`,
`waiting = |aging|+|ageless|`, `extra` starts at `waiting`; meet the floor,
respect the cap, subtract `creating`, and when `max_creating > 0` take
`min(extra, max_creating − creating)`; (the caller issues that many create
calls when positive, zero otherwise). -/
def topUpSpec (s : PoolState) : ℤ :=
  let count : ℤ := (countResources s : ℤ)
  let waiting : ℤ := ((s.agingRequests.length + s.agelessRequests.length : ℕ) : ℤ)
  let e1 := if count < s.cfg.min ∧ waiting < s.cfg.min then s.cfg.min else waiting
  let e2 := if count + e1 > s.cfg.max then s.cfg.max - count else e1
  let e3 := e2 - (s.creatingResourceCount : ℤ)
  if jsGtB s.cfg.maxCreating (JsNum.num 0) then
    min e3 (jsNumVal s.cfg.maxCreating - (s.creatingResourceCount : ℤ))
  else e3

/-- The `expires_at` of a created record according to the spec's words:
`created_at + expire_timeout` if an absolute lifetime is configured, else
absent — and reading an absent field of a JS object yields `undefined`. -/
def expiresAtPerSpec (cfg : Config) (now : ℤ) : JsNum :=
  match cfg.expireTimeout with
  | JsNum.num t => JsNum.num (now + t)
  | _ => JsNum.undef

/-- Ordering used for the aging queue: claim C4's "non-decreasing deadline,
ties broken by enqueue order" (request ids are allocated in acquire order, so
id order is enqueue order). -/
def agingBefore (a b : Request) : Prop :=
  ∀ x y : ℤ, a.acquireTimeoutAt = JsNum.num x → b.acquireTimeoutAt = JsNum.num y →
    x < y ∨ (x = y ∧ a.id < b.id)

/-- The inductive invariant carried through every transition. -/
structure Inv (s : PoolState) : Prop where
  acc : ∀ id ∈ s.acquiredIds, doneCount s.serveLog id + queuedCount s id = 1
  queued_props : ∀ r, r ∈ s.agingRequests ++ s.agelessRequests →
      r.id ∈ s.acquiredIds ∧ r.hasDone = true ∧ r.id < s.nextRequestId
  ids_lt : ∀ id ∈ s.acquiredIds, id < s.nextRequestId
  fresh : ∀ id, s.nextRequestId ≤ id → doneCount s.serveLog id = 0 ∧ queuedCount s id = 0
  sorted : s.agingRequests.Pairwise agingBefore
  aging_num : ∀ r ∈ s.agingRequests, jsIsNaN r.acquireTimeoutAt = false
  drain_free : s.isDraining = true → s.freeResources = []
  drain_queues : s.isDraining = true → s.agingRequests = [] ∧ s.agelessRequests = []
  expiry : ∀ r, r ∈ s.freeResources ++ s.lentResources →
      r.expiresAt = jsAdd (JsNum.num r.createdAt) s.cfg.expireTimeout

/-- A sample configuration with all optional limits unset (used as a concrete
instance for witnesses). -/
def exCfg : Config :=
  { min := 0, max := 4, maxCreating := JsNum.undef, maxRequests := JsNum.undef,
    acquireTimeout := JsNum.undef, idleTimeout := JsNum.undef, idleCheckInterval := 1000,
    expireTimeout := JsNum.undef, expireCheckInterval := 1000,
    validate := fun _ => true, compare := fun a b => a == b, hasBackoff := false }

/-- `exCfg` with an absolute lifetime of 500 ms configured. -/
def exCfgExpire : Config := { exCfg with expireTimeout := JsNum.num 500 }

/-- `exCfg` with a default acquire timeout of 100 ms. -/
def exCfgTimeout : Config := { exCfg with acquireTimeout := JsNum.num 100 }

/-- `exCfg` with a population floor of one resource. -/
def exCfgMin1 : Config := { exCfg with min := 1 }

/-! ## Basic lemmas -/

lemma jsIsNaN_eq_false {a : JsNum} (h : jsIsNaN a = false) : ∃ n, a = JsNum.num n := by
  cases a with
  | num n => exact ⟨n, rfl⟩
  | nan => simp [jsIsNaN] at h
  | undef => simp [jsIsNaN] at h

lemma createLoopCount_toNat (e : ℤ) : createLoopCount e = e.toNat := by
  generalize hn : e.toNat = n
  induction n generalizing e with
  | zero =>
    rw [createLoopCount]
    have h2 : ¬ 0 < e := by omega
    simp [h2]
  | succ n ih =>
    rw [createLoopCount]
    have h0 : 0 < e := by omega
    have h1 : (e - 1).toNat = n := by omega
    simp [h0, ih _ h1]

lemma serveRequest_err (req : Request) (e : ErrCode) (res : Option Resource) (s : PoolState) :
    serveRequest req (some e) res s =
      { s with serveLog := s.serveLog ++ [mkServeRec req (some e)] } := rfl

lemma serveRequest_ok (req : Request) (r : Resource) (s : PoolState) :
    serveRequest req none (some r) s =
      { s with
        lentResources := s.lentResources ++ [{ r with request := some req.id }],
        serveLog := s.serveLog ++ [mkServeRec req none] } := rfl

lemma nextFreeAux_none_free (v : Resource → Bool) :
    ∀ l : List Resource, (nextFreeAux v l).1 = none → (nextFreeAux v l).2.1 = [] := by
  intro l
  induction l with
  | nil => intro _; rfl
  | cons r rest ih =>
    by_cases hv : v r = true
    · simp [nextFreeAux, hv]
    · simp only [nextFreeAux, Bool.not_eq_true] at hv ⊢
      simp only [hv, Bool.false_eq_true, if_false]
      exact ih

lemma nextFreeAux_sublist (v : Resource → Bool) :
    ∀ l : List Resource, ((nextFreeAux v l).2.1).Sublist l := by
  intro l
  induction l with
  | nil => simp [nextFreeAux]
  | cons r rest ih =>
    by_cases hv : v r = true
    · simp [nextFreeAux, hv]
    · simp only [nextFreeAux, Bool.not_eq_true] at hv ⊢
      simp only [hv]
      exact List.Sublist.cons r ih

lemma nextFreeAux_some_mem (v : Resource → Bool) :
    ∀ l : List Resource, ∀ r, (nextFreeAux v l).1 = some r → r ∈ l ∧ v r = true := by
  intro l
  induction l with
  | nil => intro r h; simp [nextFreeAux] at h
  | cons x rest ih =>
    intro r h
    by_cases hv : v x = true
    · simp [nextFreeAux, hv] at h
      subst h
      exact ⟨List.mem_cons_self _ _, hv⟩
    · simp only [nextFreeAux, Bool.not_eq_true] at hv h
      simp only [hv] at h
      obtain ⟨hm, hvr⟩ := ih r h
      exact ⟨List.mem_cons_of_mem _ hm, hvr⟩

lemma nextFreeResource_eq (s : PoolState) :
    nextFreeResource s =
      ((nextFreeAux s.cfg.validate s.freeResources).1,
       { s with
         freeResources := (nextFreeAux s.cfg.validate s.freeResources).2.1,
         destroyingResourceCount :=
           s.destroyingResourceCount + (nextFreeAux s.cfg.validate s.freeResources).2.2 }) := rfl

/-- Characterization of `_serveAgingRequests`: some prefix of length `k` of
the aging queue is dequeued; each dequeued head produces exactly one serve-log
entry — a timeout error when `now` is past its deadline, success otherwise;
the queue remainder is the corresponding suffix; the free list shrinks to a
sublist, served resources move to the tail of the lent list with the request
back-pointer attached, and when the loop stops with the queue nonempty the
head is not timed out and no free resource remains. -/
lemma serveAgingRequests_spec (now : ℤ) (s : PoolState) :
    ∃ k f dn lx,
      serveAgingRequests now s =
        { s with
          agingRequests := s.agingRequests.drop k,
          serveLog := s.serveLog ++ ((s.agingRequests.take k).map (agingServeRec now)),
          freeResources := f,
          destroyingResourceCount := s.destroyingResourceCount + dn,
          lentResources := s.lentResources ++ lx } ∧
      f.Sublist s.freeResources ∧
      (∀ r ∈ lx, ∃ r0, r0 ∈ s.freeResources ∧ ∃ i, r = { r0 with request := some i }) ∧
      (∀ rq, (s.agingRequests.drop k).head? = some rq →
          jsGtB (JsNum.num now) rq.acquireTimeoutAt = false ∧ f = []) := by
  generalize hL : s.agingRequests.length = L
  induction L using Nat.strong_induction_on generalizing s with
  | _ L ih =>
    rw [serveAgingRequests]
    split
    · rename_i hA
      refine ⟨0, s.freeResources, 0, [], by simp, List.Sublist.refl _, by simp, ?_⟩
      intro rq hrq
      simp [hA] at hrq
    · rename_i req rest hA
      by_cases ht : jsGtB (JsNum.num now) req.acquireTimeoutAt = true
      · rw [if_pos ht]
        obtain ⟨k, f, dn, lx, heq, hsub, hlx, hstop⟩ :=
          ih rest.length (by simp [hA] at hL; omega)
            (serveRequest req (some ErrCode.acquireTimeoutError) none
              { s with agingRequests := rest }) (by simp [serveRequest])
        simp only [serveRequest_err] at hsub hlx hstop
        refine ⟨k + 1, f, dn, lx, ?_, by simpa using hsub, by simpa using hlx, ?_⟩
        · rw [heq, serveRequest_err]
          simp [hA, mkServeRec, agingServeRec, ht, List.append_assoc]
        · intro rq hrq
          apply hstop
          simpa [hA] using hrq
      · rw [if_neg ht]
        split
        · rename_i s1 hnf
          rw [nextFreeResource_eq, Prod.mk.injEq] at hnf
          obtain ⟨hn1, hs1⟩ := hnf
          have hfree : (nextFreeAux s.cfg.validate s.freeResources).2.1 = [] :=
            nextFreeAux_none_free _ _ hn1
          refine ⟨0, [], (nextFreeAux s.cfg.validate s.freeResources).2.2, [],
            ?_, List.nil_sublist _, by simp, ?_⟩
          · rw [← hs1]
            simp [hfree]
          · intro rq hrq
            simp only [List.drop_zero, hA, List.head?_cons, Option.some.injEq] at hrq
            subst hrq
            exact ⟨by simpa using ht, rfl⟩
        · rename_i r s1 hnf
          rw [nextFreeResource_eq, Prod.mk.injEq] at hnf
          obtain ⟨hn1, hs1⟩ := hnf
          obtain ⟨hrmem, hrval⟩ := nextFreeAux_some_mem _ _ _ hn1
          obtain ⟨k, f, dn, lx, heq, hsub, hlx, hstop⟩ :=
            ih rest.length (by simp [hA] at hL; omega)
              (serveRequest req none (some r) { s1 with agingRequests := rest })
              (by simp [serveRequest])
          simp only [serveRequest_ok] at hsub hlx hstop
          refine ⟨k + 1, f, (nextFreeAux s.cfg.validate s.freeResources).2.2 + dn,
            { r with request := some req.id } :: lx, ?_, ?_, ?_, ?_⟩
          · rw [heq, serveRequest_ok]
            simp [← hs1, hA, mkServeRec, agingServeRec, ht, List.append_assoc, Nat.add_assoc]
          · have h1 : f.Sublist (nextFreeAux s.cfg.validate s.freeResources).2.1 := by
              simpa [← hs1] using hsub
            exact h1.trans (nextFreeAux_sublist _ _)
          · intro x hx
            rcases List.mem_cons.mp hx with hx | hx
            · exact ⟨r, hrmem, req.id, hx⟩
            · obtain ⟨r0, hr0, i, hii⟩ := hlx x hx
              simp only [← hs1] at hr0
              exact ⟨r0, (nextFreeAux_sublist _ _).subset hr0, i, hii⟩
          · intro rq hrq
            apply hstop
            simpa [hA, ← hs1] using hrq

/-- Characterization of `_serveAgelessRequests`: a prefix of length `k` of the
ageless queue is dequeued FIFO, each head served successfully with one free
resource; the loop stops only when the queue empties or no valid free resource
remains. -/
lemma serveAgelessRequests_spec (s : PoolState) :
    ∃ k f dn lx,
      serveAgelessRequests s =
        { s with
          agelessRequests := s.agelessRequests.drop k,
          serveLog := s.serveLog ++ ((s.agelessRequests.take k).map (fun r => mkServeRec r none)),
          freeResources := f,
          destroyingResourceCount := s.destroyingResourceCount + dn,
          lentResources := s.lentResources ++ lx } ∧
      f.Sublist s.freeResources ∧
      (∀ r ∈ lx, ∃ r0, r0 ∈ s.freeResources ∧ ∃ i, r = { r0 with request := some i }) ∧
      ((s.agelessRequests.drop k) ≠ [] → f = []) := by
  generalize hL : s.agelessRequests.length = L
  induction L using Nat.strong_induction_on generalizing s with
  | _ L ih =>
    rw [serveAgelessRequests]
    split
    · rename_i hA
      refine ⟨0, s.freeResources, 0, [], by simp, List.Sublist.refl _, by simp, ?_⟩
      simp [hA]
    · rename_i req rest hA
      split
      · rename_i s1 hnf
        rw [nextFreeResource_eq, Prod.mk.injEq] at hnf
        obtain ⟨hn1, hs1⟩ := hnf
        have hfree : (nextFreeAux s.cfg.validate s.freeResources).2.1 = [] :=
          nextFreeAux_none_free _ _ hn1
        refine ⟨0, [], (nextFreeAux s.cfg.validate s.freeResources).2.2, [],
          ?_, List.nil_sublist _, by simp, fun _ => rfl⟩
        rw [← hs1]
        simp [hfree]
      · rename_i r s1 hnf
        rw [nextFreeResource_eq, Prod.mk.injEq] at hnf
        obtain ⟨hn1, hs1⟩ := hnf
        obtain ⟨hrmem, hrval⟩ := nextFreeAux_some_mem _ _ _ hn1
        obtain ⟨k, f, dn, lx, heq, hsub, hlx, hstop⟩ :=
          ih rest.length (by simp [hA] at hL; omega)
            (serveRequest req none (some r) { s1 with agelessRequests := rest })
            (by simp [serveRequest])
        simp only [serveRequest_ok] at hsub hlx hstop
        refine ⟨k + 1, f, (nextFreeAux s.cfg.validate s.freeResources).2.2 + dn,
          { r with request := some req.id } :: lx, ?_, ?_, ?_, ?_⟩
        · rw [heq, serveRequest_ok]
          simp [← hs1, hA, List.append_assoc, Nat.add_assoc]
        · have h1 : f.Sublist (nextFreeAux s.cfg.validate s.freeResources).2.1 := by
            simpa [← hs1] using hsub
          exact h1.trans (nextFreeAux_sublist _ _)
        · intro x hx
          rcases List.mem_cons.mp hx with hx | hx
          · exact ⟨r, hrmem, req.id, hx⟩
          · obtain ⟨r0, hr0, i, hii⟩ := hlx x hx
            simp only [← hs1] at hr0
            exact ⟨r0, (nextFreeAux_sublist _ _).subset hr0, i, hii⟩
        · intro hne
          apply hstop
          simpa [hA, ← hs1] using hne

lemma insertAgingRev_perm (req : Request) (l : List Request) :
    (insertAgingRev req l).Perm (req :: l) := by
  induction l with
  | nil => simp [insertAgingRev]
  | cons x xs ih =>
    rw [insertAgingRev]
    split
    · exact ((ih.cons x).trans (List.Perm.swap req x xs))
    · exact List.Perm.refl _

lemma insertAgingRev_split (req : Request) (l : List Request) :
    ∃ l1 l2, l = l1 ++ l2 ∧ insertAgingRev req l = l1 ++ req :: l2 ∧
      (∀ x ∈ l1, jsLtB req.acquireTimeoutAt x.acquireTimeoutAt = true) ∧
      (∀ x, l2.head? = some x → jsLtB req.acquireTimeoutAt x.acquireTimeoutAt = false) := by
  induction l with
  | nil => exact ⟨[], [], rfl, rfl, by simp, by simp⟩
  | cons x xs ih =>
    rw [insertAgingRev]
    by_cases h : jsLtB req.acquireTimeoutAt x.acquireTimeoutAt = true
    · obtain ⟨l1, l2, hsplit, hins, h1, h2⟩ := ih
      refine ⟨x :: l1, l2, by simp [hsplit], by simp [h, hins], ?_, h2⟩
      intro y hy
      rcases List.mem_cons.mp hy with hy | hy
      · exact hy ▸ h
      · exact h1 y hy
    · refine ⟨[], x :: xs, rfl, by simp [h], by simp, ?_⟩
      intro y hy
      simp only [List.head?_cons, Option.some.injEq] at hy
      subst hy
      simpa using h

lemma agingBefore_intro {a b : Request} {x y : ℤ}
    (ha : a.acquireTimeoutAt = JsNum.num x) (hb : b.acquireTimeoutAt = JsNum.num y)
    (h : x < y ∨ (x = y ∧ a.id < b.id)) : agingBefore a b := by
  intro p q hp hq
  rw [ha] at hp
  rw [hb] at hq
  injection hp with hp
  injection hq with hq
  subst hp
  subst hq
  exact h

lemma insertAgingRev_pairwise (req : Request) (l : List Request)
    (hnum : jsIsNaN req.acquireTimeoutAt = false)
    (hlnum : ∀ r ∈ l, jsIsNaN r.acquireTimeoutAt = false)
    (hid : ∀ r ∈ l, r.id < req.id)
    (hp : l.Pairwise (fun a b => agingBefore b a)) :
    (insertAgingRev req l).Pairwise (fun a b => agingBefore b a) := by
  obtain ⟨nr, hnr⟩ := jsIsNaN_eq_false hnum
  induction l with
  | nil => simp [insertAgingRev]
  | cons x xs ih =>
    obtain ⟨hx, hxs⟩ := List.pairwise_cons.mp hp
    obtain ⟨nx, hnx⟩ := jsIsNaN_eq_false (hlnum x (List.mem_cons_self _ _))
    rw [insertAgingRev]
    split
    · rename_i hlt
      rw [hnr, hnx] at hlt
      simp only [jsLtB, decide_eq_true_eq] at hlt
      refine List.pairwise_cons.mpr ⟨?_, ?_⟩
      · intro y hy
        have hy' := (insertAgingRev_perm req xs).mem_iff.mp hy
        rcases List.mem_cons.mp hy' with hy' | hy'
        · exact hy' ▸ agingBefore_intro hnr hnx (Or.inl hlt)
        · exact hx y hy'
      · exact ih (fun r hr => hlnum r (List.mem_cons_of_mem _ hr))
          (fun r hr => hid r (List.mem_cons_of_mem _ hr)) hxs
    · rename_i hlt
      rw [hnr, hnx] at hlt
      simp only [jsLtB, decide_eq_true_eq] at hlt
      have hxl : nx ≤ nr := not_lt.mp hlt
      refine List.pairwise_cons.mpr ⟨?_, hp⟩
      intro y hy
      rcases List.mem_cons.mp hy with hy | hy
      · subst hy
        refine agingBefore_intro hnx hnr ?_
        rcases lt_or_eq_of_le hxl with hcase | hcase
        · exact Or.inl hcase
        · exact Or.inr ⟨hcase, hid y (List.mem_cons_self _ _)⟩
      · obtain ⟨ny, hny⟩ := jsIsNaN_eq_false (hlnum y (List.mem_cons_of_mem _ hy))
        refine agingBefore_intro hny hnr ?_
        have hyx := hx y hy ny nx hny hnx
        have hidy := hid y (List.mem_cons_of_mem _ hy)
        rcases hyx with hyx | ⟨hyx, _⟩
        · left; omega
        · rcases lt_or_eq_of_le hxl with hc | hc
          · left; omega
          · right; exact ⟨by omega, hidy⟩

lemma serveAllAborted_spec : ∀ (l : List Request) (s : PoolState),
    serveAllAborted l s =
      { s with serveLog := s.serveLog ++
          l.map (fun r => mkServeRec r (some ErrCode.acquireAbortedByDrain)) } := by
  intro l
  induction l with
  | nil => intro s; simp [serveAllAborted]
  | cons r rest ih =>
    intro s
    rw [serveAllAborted, serveRequest_err, ih]
    simp

lemma doneCount_append (l1 l2 : List ServeRec) (id : ℕ) :
    doneCount (l1 ++ l2) id = doneCount l1 id + doneCount l2 id := by
  simp [doneCount, List.filter_append]

lemma idCount_append (l1 l2 : List Request) (id : ℕ) :
    idCount (l1 ++ l2) id = idCount l1 id + idCount l2 id := by
  simp [idCount, List.filter_append]

lemma idCount_reverse (l : List Request) (id : ℕ) :
    idCount l.reverse id = idCount l id := by
  simp [idCount, List.filter_reverse]

lemma idCount_take_drop (l : List Request) (k : ℕ) (id : ℕ) :
    idCount l id = idCount (l.take k) id + idCount (l.drop k) id := by
  rw [← idCount_append, List.take_append_drop]

lemma idCount_eq_zero_of_notmem (l : List Request) (id : ℕ)
    (h : ∀ r ∈ l, r.id ≠ id) : idCount l id = 0 := by
  induction l with
  | nil => rfl
  | cons r rest ih =>
    have h1 : (r.id == id) = false := by
      simpa using h r (List.mem_cons_self _ _)
    simp only [idCount, List.filter]
    rw [h1]
    exact ih (fun x hx => h x (List.mem_cons_of_mem _ hx))

lemma doneCount_map_entries (g : Request → ServeRec)
    (hg : ∀ r, (g r).rid = r.id ∧ (g r).hasDone = r.hasDone)
    (l : List Request) (hd : ∀ r ∈ l, r.hasDone = true) (id : ℕ) :
    doneCount (l.map g) id = idCount l id := by
  induction l with
  | nil => rfl
  | cons r rest ih =>
    have hdr : r.hasDone = true := hd r (List.mem_cons_self _ _)
    obtain ⟨hg1, hg2⟩ := hg r
    simp only [List.map_cons, doneCount, idCount, List.filter, hg1, hg2, hdr, Bool.and_true]
    by_cases h1 : (r.id == id) = true
    · simp only [h1, List.length_cons]
      have := ih (fun x hx => hd x (List.mem_cons_of_mem _ hx))
      simp only [doneCount, idCount] at this
      omega
    · simp only [Bool.not_eq_true] at h1
      simp only [h1]
      exact ih (fun x hx => hd x (List.mem_cons_of_mem _ hx))

lemma doneCount_map_eq_zero (g : Request → ServeRec)
    (hg : ∀ r, (g r).rid = r.id)
    (l : List Request) (id : ℕ) (h : ∀ r ∈ l, r.id ≠ id) :
    doneCount (l.map g) id = 0 := by
  induction l with
  | nil => rfl
  | cons r rest ih =>
    have h1 : ((g r).rid == id) = false := by
      rw [hg r]
      simpa using h r (List.mem_cons_self _ _)
    simp only [List.map_cons, doneCount, List.filter, h1, Bool.false_and]
    exact ih (fun x hx => h x (List.mem_cons_of_mem _ hx))

lemma destroyExpiredResources_fields (now : ℤ) (s : PoolState) :
    ∃ f dn le, destroyExpiredResources now s =
        { s with freeResources := f,
                 destroyingResourceCount := s.destroyingResourceCount + dn,
                 lastExpireCheckAt := le } ∧
      f.Sublist s.freeResources := by
  rw [destroyExpiredResources]
  split
  · exact ⟨_, _, now, rfl, List.filter_sublist _⟩
  · exact ⟨s.freeResources, 0, s.lastExpireCheckAt, by simp, List.Sublist.refl _⟩

lemma destroyIdleResources_fields (now : ℤ) (s : PoolState) :
    ∃ f dn li, destroyIdleResources now s =
        { s with freeResources := f,
                 destroyingResourceCount := s.destroyingResourceCount + dn,
                 lastIdleCheckAt := li } ∧
      f.Sublist s.freeResources := by
  rw [destroyIdleResources]
  split
  · exact ⟨_, _, now, rfl, List.filter_sublist _⟩
  · exact ⟨s.freeResources, 0, s.lastIdleCheckAt, by simp, List.Sublist.refl _⟩

lemma createResources_fields (s : PoolState) :
    ∃ n, createResources s =
      { s with creatingResourceCount := s.creatingResourceCount + n,
               createCalls := s.createCalls + n } :=
  ⟨_, rfl⟩

lemma destroyExpiredResources_admin (now : ℤ) (t : PoolState) :
    (destroyExpiredResources now t).agingRequests = t.agingRequests ∧
    (destroyExpiredResources now t).agelessRequests = t.agelessRequests ∧
    (destroyExpiredResources now t).serveLog = t.serveLog ∧
    (destroyExpiredResources now t).lentResources = t.lentResources ∧
    (destroyExpiredResources now t).creatingResourceCount = t.creatingResourceCount ∧
    (destroyExpiredResources now t).createCalls = t.createCalls ∧
    (destroyExpiredResources now t).cfg = t.cfg ∧
    (destroyExpiredResources now t).isDraining = t.isDraining ∧
    (destroyExpiredResources now t).nextRequestId = t.nextRequestId ∧
    (destroyExpiredResources now t).acquiredIds = t.acquiredIds := by
  rw [destroyExpiredResources]
  split <;> simp [destroyDeadResources]

lemma destroyIdleResources_admin (now : ℤ) (t : PoolState) :
    (destroyIdleResources now t).agingRequests = t.agingRequests ∧
    (destroyIdleResources now t).agelessRequests = t.agelessRequests ∧
    (destroyIdleResources now t).serveLog = t.serveLog ∧
    (destroyIdleResources now t).lentResources = t.lentResources ∧
    (destroyIdleResources now t).creatingResourceCount = t.creatingResourceCount ∧
    (destroyIdleResources now t).createCalls = t.createCalls ∧
    (destroyIdleResources now t).cfg = t.cfg ∧
    (destroyIdleResources now t).isDraining = t.isDraining ∧
    (destroyIdleResources now t).nextRequestId = t.nextRequestId ∧
    (destroyIdleResources now t).acquiredIds = t.acquiredIds := by
  rw [destroyIdleResources]
  split <;> simp [destroyDeadResources]

lemma destroyExpiredResources_free (now : ℤ) (t : PoolState) :
    ∃ dn, (destroyExpiredResources now t).destroyingResourceCount =
        t.destroyingResourceCount + dn ∧
      ((destroyExpiredResources now t).freeResources).Sublist t.freeResources := by
  rw [destroyExpiredResources]
  split
  · exact ⟨_, rfl, List.filter_sublist _⟩
  · exact ⟨0, rfl, List.Sublist.refl _⟩

lemma destroyIdleResources_free (now : ℤ) (t : PoolState) :
    ∃ dn, (destroyIdleResources now t).destroyingResourceCount =
        t.destroyingResourceCount + dn ∧
      ((destroyIdleResources now t).freeResources).Sublist t.freeResources := by
  rw [destroyIdleResources]
  split
  · exact ⟨_, rfl, List.filter_sublist _⟩
  · exact ⟨0, rfl, List.Sublist.refl _⟩

lemma maintain_id (now : ℤ) (s : PoolState)
    (h : s.isDraining = true ∨ s.isMaintaining = true) : maintain now s = s := by
  rw [maintain, if_pos h]

/-- Characterization of one `_maintain` pass from a non-draining quiescent
state: reaping touches only the free list, counters and last-check stamps;
then a prefix of the aging queue is processed (timeouts and serves, in
order), then a prefix of the ageless queue is served FIFO, and finally the
top-up adds `n` pending creations.  The serve-log delta shows every aging
entry strictly before every ageless entry. -/
lemma maintain_spec (now : ℤ) (s : PoolState)
    (hd : s.isDraining = false) (hm : s.isMaintaining = false) :
    ∃ k j f dn lx n,
      (maintain now s).agingRequests = s.agingRequests.drop k ∧
      (maintain now s).agelessRequests = s.agelessRequests.drop j ∧
      (maintain now s).serveLog = s.serveLog
          ++ (s.agingRequests.take k).map (agingServeRec now)
          ++ (s.agelessRequests.take j).map (fun r => mkServeRec r none) ∧
      (maintain now s).freeResources = f ∧ f.Sublist s.freeResources ∧
      (maintain now s).lentResources = s.lentResources ++ lx ∧
      (∀ r ∈ lx, ∃ r0, r0 ∈ s.freeResources ∧ ∃ i, r = { r0 with request := some i }) ∧
      (maintain now s).destroyingResourceCount = s.destroyingResourceCount + dn ∧
      (maintain now s).creatingResourceCount = s.creatingResourceCount + n ∧
      (maintain now s).createCalls = s.createCalls + n ∧
      (maintain now s).cfg = s.cfg ∧
      (maintain now s).isDraining = false ∧
      (maintain now s).nextRequestId = s.nextRequestId ∧
      (maintain now s).acquiredIds = s.acquiredIds ∧
      (∀ rq, (s.agingRequests.drop k).head? = some rq →
          jsGtB (JsNum.num now) rq.acquireTimeoutAt = false ∧ f = []) ∧
      ((s.agelessRequests.drop j) ≠ [] → f = []) := by
  have h0 : maintain now s =
      { createResources
          (serveAgelessRequests
            (serveAgingRequests now
              (destroyIdleResources now
                (destroyExpiredResources now { s with isMaintaining := true })))) with
        isMaintaining := false } := by
    rw [maintain, if_neg (by simp [hd, hm])]
  obtain ⟨e2a, e2b, e2c, e2d, e2e, e2f, e2g, e2h, e2i, e2j⟩ :=
    destroyExpiredResources_admin now { s with isMaintaining := true }
  obtain ⟨d2, hd2, hf2⟩ := destroyExpiredResources_free now { s with isMaintaining := true }
  obtain ⟨e3a, e3b, e3c, e3d, e3e, e3f, e3g, e3h, e3i, e3j⟩ :=
    destroyIdleResources_admin now (destroyExpiredResources now { s with isMaintaining := true })
  obtain ⟨d3, hd3, hf3⟩ :=
    destroyIdleResources_free now (destroyExpiredResources now { s with isMaintaining := true })
  obtain ⟨k, fA, dA, lxA, heA, hsA, hlxA, hstopA⟩ :=
    serveAgingRequests_spec now
      (destroyIdleResources now (destroyExpiredResources now { s with isMaintaining := true }))
  obtain ⟨j, fB, dB, lxB, heB, hsB, hlxB, hstopB⟩ :=
    serveAgelessRequests_spec
      (serveAgingRequests now
        (destroyIdleResources now (destroyExpiredResources now { s with isMaintaining := true })))
  obtain ⟨n, heC⟩ :=
    createResources_fields
      (serveAgelessRequests
        (serveAgingRequests now
          (destroyIdleResources now (destroyExpiredResources now { s with isMaintaining := true }))))
  simp only at e2a e2b e2c e2d e2e e2f e2g e2h e2i e2j hd2
  have hVaging := e3a.trans e2a
  have hVageless := e3b.trans e2b
  have hVlog := e3c.trans e2c
  have hVlent := e3d.trans e2d
  have hVfree : ((destroyIdleResources now
      (destroyExpiredResources now { s with isMaintaining := true })).freeResources).Sublist
      s.freeResources := by
    refine hf3.trans (hf2.trans ?_)
    simp
  refine ⟨k, j, fB, d2 + d3 + dA + dB, lxA ++ lxB, n, ?_, ?_, ?_, ?_, ?_, ?_, ?_, ?_, ?_, ?_,
    ?_, ?_, ?_, ?_, ?_, ?_⟩
  · rw [h0]
    show (createResources _).agingRequests = _
    rw [heC]
    show (serveAgelessRequests _).agingRequests = _
    rw [heB]
    show (serveAgingRequests now _).agingRequests = _
    rw [heA]
    show (destroyIdleResources now _).agingRequests.drop k = _
    rw [hVaging]
  · rw [h0]
    show (createResources _).agelessRequests = _
    rw [heC]
    show (serveAgelessRequests _).agelessRequests = _
    rw [heB]
    show ((serveAgingRequests now _).agelessRequests).drop j = _
    rw [heA]
    show ((destroyIdleResources now _).agelessRequests).drop j = _
    rw [hVageless]
  · rw [h0]
    show (createResources _).serveLog = _
    rw [heC]
    show (serveAgelessRequests _).serveLog = _
    rw [heB]
    show (serveAgingRequests now _).serveLog ++ _ = _
    rw [heA]
    simp only [hVlog, hVaging, hVageless]
  · rw [h0]
    show (createResources _).freeResources = _
    rw [heC]
    show (serveAgelessRequests _).freeResources = _
    rw [heB]
  · have h1 : fB.Sublist fA := by
      have := hsB
      rw [heA] at this
      simpa using this
    exact h1.trans (hsA.trans hVfree)
  · rw [h0]
    show (createResources _).lentResources = _
    rw [heC]
    show (serveAgelessRequests _).lentResources = _
    rw [heB]
    show (serveAgingRequests now _).lentResources ++ _ = _
    rw [heA]
    show ((destroyIdleResources now _).lentResources ++ _) ++ _ = _
    rw [hVlent, List.append_assoc]
  · intro r hr
    rcases List.mem_append.mp hr with hr | hr
    · obtain ⟨r0, hr0, i, hi⟩ := hlxA r hr
      exact ⟨r0, hVfree.subset hr0, i, hi⟩
    · obtain ⟨r0, hr0, i, hi⟩ := hlxB r hr
      rw [heA] at hr0
      simp only at hr0
      exact ⟨r0, hVfree.subset (hsA.subset hr0), i, hi⟩
  · rw [h0]
    show (createResources _).destroyingResourceCount = _
    rw [heC]
    show (serveAgelessRequests _).destroyingResourceCount = _
    rw [heB]
    show (serveAgingRequests now _).destroyingResourceCount + dB = _
    rw [heA]
    show ((destroyIdleResources now _).destroyingResourceCount + dA) + dB = _
    rw [hd3, hd2]
    omega
  · rw [h0]
    show (createResources _).creatingResourceCount = _
    rw [heC]
    show (serveAgelessRequests _).creatingResourceCount + n = _
    rw [heB]
    show (serveAgingRequests now _).creatingResourceCount + n = _
    rw [heA]
    show (destroyIdleResources now _).creatingResourceCount + n = _
    rw [e3e, e2e]
  · rw [h0]
    show (createResources _).createCalls = _
    rw [heC]
    show (serveAgelessRequests _).createCalls + n = _
    rw [heB]
    show (serveAgingRequests now _).createCalls + n = _
    rw [heA]
    show (destroyIdleResources now _).createCalls + n = _
    rw [e3f, e2f]
  · rw [h0]
    show (createResources _).cfg = _
    rw [heC]
    show (serveAgelessRequests _).cfg = _
    rw [heB]
    show (serveAgingRequests now _).cfg = _
    rw [heA]
    show (destroyIdleResources now _).cfg = _
    rw [e3g, e2g]
  · rw [h0]
    show (createResources _).isDraining = _
    rw [heC]
    show (serveAgelessRequests _).isDraining = _
    rw [heB]
    show (serveAgingRequests now _).isDraining = _
    rw [heA]
    show (destroyIdleResources now _).isDraining = _
    rw [e3h, e2h]
    exact hd
  · rw [h0]
    show (createResources _).nextRequestId = _
    rw [heC]
    show (serveAgelessRequests _).nextRequestId = _
    rw [heB]
    show (serveAgingRequests now _).nextRequestId = _
    rw [heA]
    show (destroyIdleResources now _).nextRequestId = _
    rw [e3i, e2i]
  · rw [h0]
    show (createResources _).acquiredIds = _
    rw [heC]
    show (serveAgelessRequests _).acquiredIds = _
    rw [heB]
    show (serveAgingRequests now _).acquiredIds = _
    rw [heA]
    show (destroyIdleResources now _).acquiredIds = _
    rw [e3j, e2j]
  · intro rq hrq
    rw [← hVaging] at hrq
    obtain ⟨hng, hfa⟩ := hstopA rq hrq
    refine ⟨hng, ?_⟩
    have h1 : fB.Sublist fA := by
      have := hsB
      rw [heA] at this
      simpa using this
    rw [hfa] at h1
    exact List.sublist_nil.mp h1
  · intro hne
    apply hstopB
    rw [heA]
    show ((destroyIdleResources now _).agelessRequests).drop j ≠ []
    rw [hVageless]
    exact hne

lemma inv_of_same {s t : PoolState} (hs : Inv s)
    (h1 : t.acquiredIds = s.acquiredIds) (h2 : t.serveLog = s.serveLog)
    (h3 : t.agingRequests = s.agingRequests) (h4 : t.agelessRequests = s.agelessRequests)
    (h5 : t.nextRequestId = s.nextRequestId) (h6 : t.isDraining = s.isDraining)
    (h7 : t.freeResources = s.freeResources) (h8 : t.lentResources = s.lentResources)
    (h9 : t.cfg = s.cfg) : Inv t := by
  constructor
  · intro id hid
    rw [h1] at hid
    have := hs.acc id hid
    simpa [queuedCount, h2, h3, h4] using this
  · intro r hr
    rw [h3, h4] at hr
    have := hs.queued_props r hr
    rw [h1, h5]
    exact this
  · intro id hid
    rw [h1] at hid
    rw [h5]
    exact hs.ids_lt id hid
  · intro id hid
    rw [h5] at hid
    have := hs.fresh id hid
    simpa [queuedCount, h2, h3, h4] using this
  · rw [h3]; exact hs.sorted
  · rw [h3]; exact hs.aging_num
  · rw [h6, h7]; exact hs.drain_free
  · rw [h6, h3, h4]; exact hs.drain_queues
  · intro r hr
    rw [h7, h8] at hr
    rw [h9]
    exact hs.expiry r hr

lemma scheduleMaintainance_eq (s : PoolState) :
    scheduleMaintainance s = { s with isMaintenanceScheduled := true } := by
  rw [scheduleMaintainance]
  split_ifs with h
  · rw [← h]
  · rfl

lemma storeResource_stored (now : ℤ) (r : Resource) (s : PoolState)
    (h : s.isDraining = false ∧ s.cfg.validate r = true) :
    storeResource now r s =
      { s with
        freeResources := s.freeResources ++ [{ r with request := none, idleAt := JsNum.num now }],
        isMaintenanceScheduled := true } := by
  rw [storeResource, if_pos h, scheduleMaintainance_eq]

lemma storeResource_destroyed (now : ℤ) (r : Resource) (s : PoolState)
    (h : ¬(s.isDraining = false ∧ s.cfg.validate r = true)) :
    storeResource now r s =
      { s with destroyingResourceCount := s.destroyingResourceCount + 1 } := by
  rw [storeResource, if_neg h]
  rfl

lemma removeLastMatching_spec (p : Resource → Bool) :
    ∀ (l : List Resource) (x : Resource) (rest' : List Resource),
      removeLastMatching p l = some (x, rest') →
      ∃ l1 l2, l = l1 ++ x :: l2 ∧ rest' = l1 ++ l2 := by
  intro l
  induction l with
  | nil => intro x rest' h; simp [removeLastMatching] at h
  | cons r rest ih =>
    intro x rest' h
    rw [removeLastMatching] at h
    cases hm : removeLastMatching p rest with
    | some pair =>
      rw [hm] at h
      obtain ⟨l1, l2, he1, he2⟩ := ih pair.1 pair.2 (by rw [hm])
      simp only [Option.some.injEq, Prod.mk.injEq] at h
      obtain ⟨hx, hrest⟩ := h
      exact ⟨r :: l1, l2, by simp [he1, hx], by simp [← hrest, he2]⟩
    | none =>
      rw [hm] at h
      split_ifs at h with hp
      · simp only [Option.some.injEq, Prod.mk.injEq] at h
        obtain ⟨hx, hrest⟩ := h
        exact ⟨[], rest, by simp [hx], by simp [hrest]⟩

lemma removeLastMatching_sublist (p : Resource → Bool) (l : List Resource)
    (x : Resource) (rest' : List Resource) (h : removeLastMatching p l = some (x, rest')) :
    rest'.Sublist l ∧ x ∈ l := by
  obtain ⟨l1, l2, he1, he2⟩ := removeLastMatching_spec p l x rest' h
  subst he1
  subst he2
  constructor
  · exact List.Sublist.append (List.Sublist.refl _) (List.sublist_cons_self _ _)
  · simp

lemma waitDrain_same (s : PoolState) :
    (waitDrain s).acquiredIds = s.acquiredIds ∧ (waitDrain s).serveLog = s.serveLog ∧
    (waitDrain s).agingRequests = s.agingRequests ∧
    (waitDrain s).agelessRequests = s.agelessRequests ∧
    (waitDrain s).nextRequestId = s.nextRequestId ∧ (waitDrain s).isDraining = s.isDraining ∧
    (waitDrain s).freeResources = s.freeResources ∧
    (waitDrain s).lentResources = s.lentResources ∧ (waitDrain s).cfg = s.cfg := by
  rw [waitDrain]
  split_ifs <;> simp

lemma drainStep_first (s : PoolState) (h : s.isDraining = false) :
    drainStep s = waitDrain
      { s with
        isDraining := true, periodicOn := false,
        agingRequests := [], agelessRequests := [],
        serveLog := s.serveLog
          ++ (s.agingRequests.reverse.map (fun r => mkServeRec r (some ErrCode.acquireAbortedByDrain)))
          ++ (s.agelessRequests.reverse.map (fun r => mkServeRec r (some ErrCode.acquireAbortedByDrain))),
        destroyingResourceCount := s.destroyingResourceCount + s.freeResources.length,
        freeResources := [] } := by
  rw [drainStep]
  dsimp only
  rw [if_pos h]
  rw [serveAllAborted_spec, serveAllAborted_spec]

lemma drainStep_again (s : PoolState) (h : s.isDraining = true) :
    drainStep s = waitDrain s := by
  rw [drainStep]
  dsimp only
  rw [if_neg (by simp [h])]

lemma idCount_nil (id : ℕ) : idCount [] id = 0 := rfl

lemma doneCount_single (e : ServeRec) (id : ℕ) :
    doneCount [e] id = if e.rid = id ∧ e.hasDone = true then 1 else 0 := by
  simp only [doneCount, List.filter_cons, List.filter_nil]
  by_cases h1 : (e.rid == id && e.hasDone) = true
  · rw [if_pos h1, if_pos (by simpa [Bool.and_eq_true, beq_iff_eq] using h1)]
    rfl
  · rw [if_neg h1, if_neg (by simpa [Bool.and_eq_true, beq_iff_eq] using h1)]
    rfl

lemma idCount_cons (r : Request) (l : List Request) (id : ℕ) :
    idCount (r :: l) id = (if r.id = id then 1 else 0) + idCount l id := by
  simp only [idCount, List.filter_cons]
  by_cases h : r.id = id
  · rw [if_pos (by simpa using h), if_pos h]
    simp [Nat.add_comm]
  · rw [if_neg (by simpa using h), if_neg h]
    simp

lemma idCount_perm {l1 l2 : List Request} (h : l1.Perm l2) (id : ℕ) :
    idCount l1 id = idCount l2 id :=
  (h.filter _).length_eq

lemma insertedAging_perm (req : Request) (l : List Request) :
    ((insertAgingRev req l.reverse).reverse).Perm (req :: l) := by
  refine (List.reverse_perm _).trans ?_
  refine (insertAgingRev_perm req l.reverse).trans ?_
  exact List.Perm.cons req (List.reverse_perm l)

lemma inv_acquire_rejected (s : PoolState) (hinv : Inv s) (e : ErrCode) :
    Inv { s with
          nextRequestId := s.nextRequestId + 1,
          acquiredIds := s.acquiredIds ++ [s.nextRequestId],
          serveLog := s.serveLog ++ [⟨s.nextRequestId, some e, true⟩] } := by
  have hfresh := hinv.fresh s.nextRequestId (le_refl _)
  constructor
  · intro id hid
    simp only [List.mem_append, List.mem_singleton] at hid
    simp only [queuedCount, doneCount_append, doneCount_single]
    rcases hid with hid | hid
    · have h1 := hinv.acc id hid
      have h2 := hinv.ids_lt id hid
      simp only [queuedCount] at h1
      have h3 : ¬(s.nextRequestId = id ∧ True) := by
        intro hc
        omega
      simp only [idCount] at h1 ⊢
      rw [if_neg (by simpa using h3)]
      omega
    · subst hid
      simp only [queuedCount] at hfresh
      rw [if_pos (by simp)]
      simp only [idCount] at hfresh ⊢
      omega
  · intro r hr
    obtain ⟨ha, hb, hc⟩ := hinv.queued_props r hr
    refine ⟨List.mem_append_left _ ha, hb, ?_⟩
    show r.id < s.nextRequestId + 1
    omega
  · intro id hid
    show id < s.nextRequestId + 1
    simp only [List.mem_append, List.mem_singleton] at hid
    rcases hid with hid | hid
    · have := hinv.ids_lt id hid
      omega
    · omega
  · intro id hid
    simp only at hid
    have hfr := hinv.fresh id (by omega)
    simp only [queuedCount, doneCount_append, doneCount_single] at hfr ⊢
    rw [if_neg (by simp; omega)]
    simp only [idCount] at hfr ⊢
    omega
  · exact hinv.sorted
  · exact hinv.aging_num
  · exact hinv.drain_free
  · exact hinv.drain_queues
  · exact hinv.expiry

lemma inv_acquire_enqueued (s : PoolState) (hinv : Inv s) (req : Request)
    (hrid : req.id = s.nextRequestId) (hdone : req.hasDone = true)
    (hnd : s.isDraining = false) :
    Inv (scheduleMaintainance (insertRequestByAcquireTimeout req
      { s with
        nextRequestId := s.nextRequestId + 1,
        acquiredIds := s.acquiredIds ++ [s.nextRequestId] })) := by
  have hfresh := hinv.fresh s.nextRequestId (le_refl _)
  rw [insertRequestByAcquireTimeout]
  split_ifs with hnan
  · -- ageless append
    rw [scheduleMaintainance_eq]
    constructor
    · intro id hid
      simp only [List.mem_append, List.mem_singleton] at hid
      simp only [queuedCount, idCount_append]
      have hsingle : ∀ i, idCount [req] i = if s.nextRequestId = i then 1 else 0 := by
        intro i
        rw [show idCount [req] i = (if req.id = i then 1 else 0) + idCount [] i from idCount_cons req [] i]
        simp [hrid, idCount]
      rcases hid with hid | hid
      · have h1 := hinv.acc id hid
        have h2 := hinv.ids_lt id hid
        simp only [queuedCount] at h1
        rw [hsingle id, if_neg (by omega)]
        omega
      · subst hid
        simp only [queuedCount] at hfresh
        rw [hsingle s.nextRequestId, if_pos rfl]
        omega
    · intro r hr
      simp only [List.mem_append, List.mem_singleton] at hr
      rcases hr with hr | hr | hr
      · obtain ⟨ha, hb, hc⟩ := hinv.queued_props r (List.mem_append_left _ hr)
        refine ⟨List.mem_append_left _ ha, hb, ?_⟩
        show r.id < s.nextRequestId + 1
        omega
      · obtain ⟨ha, hb, hc⟩ := hinv.queued_props r (List.mem_append_right _ hr)
        refine ⟨List.mem_append_left _ ha, hb, ?_⟩
        show r.id < s.nextRequestId + 1
        omega
      · subst hr
        exact ⟨by simp [hrid], hdone, by simp [hrid]⟩
    · intro id hid
      show id < s.nextRequestId + 1
      simp only [List.mem_append, List.mem_singleton] at hid
      rcases hid with hid | hid
      · have := hinv.ids_lt id hid
        omega
      · omega
    · intro id hid
      simp only at hid
      have hfr := hinv.fresh id (by omega)
      simp only [queuedCount, idCount_append] at hfr ⊢
      have hsingle : idCount [req] id = 0 := by
        rw [show idCount [req] id = (if req.id = id then 1 else 0) + idCount [] id from idCount_cons req [] id]
        simp only [idCount, List.filter_nil, List.length_nil, Nat.add_zero]
        rw [if_neg (by omega)]
      omega
    · exact hinv.sorted
    · exact hinv.aging_num
    · intro hdr
      simp only at hdr
      rw [hnd] at hdr
      simp at hdr
    · intro hdr
      simp only at hdr
      rw [hnd] at hdr
      simp at hdr
    · exact hinv.expiry
  · -- sorted insert into the aging queue
    rw [scheduleMaintainance_eq]
    have hperm := insertedAging_perm req s.agingRequests
    have hmem : ∀ x, x ∈ (insertAgingRev req s.agingRequests.reverse).reverse ↔
        x = req ∨ x ∈ s.agingRequests := by
      intro x
      rw [hperm.mem_iff]
      simp
    constructor
    · intro id hid
      simp only [List.mem_append, List.mem_singleton] at hid
      simp only [queuedCount]
      rw [idCount_perm hperm, idCount_cons]
      rcases hid with hid | hid
      · have h1 := hinv.acc id hid
        have h2 := hinv.ids_lt id hid
        simp only [queuedCount] at h1
        rw [if_neg (by omega)]
        omega
      · subst hid
        simp only [queuedCount] at hfresh
        rw [if_pos hrid]
        omega
    · intro r hr
      simp only [List.mem_append] at hr
      rcases hr with hr | hr
      · rcases (hmem r).mp hr with hr | hr
        · subst hr
          exact ⟨by simp [hrid], hdone, by simp [hrid]⟩
        · obtain ⟨ha, hb, hc⟩ := hinv.queued_props r (List.mem_append_left _ hr)
          refine ⟨List.mem_append_left _ ha, hb, ?_⟩
          show r.id < s.nextRequestId + 1
          omega
      · obtain ⟨ha, hb, hc⟩ := hinv.queued_props r (List.mem_append_right _ hr)
        refine ⟨List.mem_append_left _ ha, hb, ?_⟩
        show r.id < s.nextRequestId + 1
        omega
    · intro id hid
      show id < s.nextRequestId + 1
      simp only [List.mem_append, List.mem_singleton] at hid
      rcases hid with hid | hid
      · have := hinv.ids_lt id hid
        omega
      · omega
    · intro id hid
      simp only at hid
      have hfr := hinv.fresh id (by omega)
      simp only [queuedCount] at hfr ⊢
      rw [idCount_perm hperm, idCount_cons, if_neg (by omega)]
      omega
    · rw [List.pairwise_reverse]
      refine insertAgingRev_pairwise req s.agingRequests.reverse (by simpa using hnan) ?_ ?_ ?_
      · intro r hr
        exact hinv.aging_num r (List.mem_reverse.mp hr)
      · intro r hr
        have := (hinv.queued_props r (List.mem_append_left _ (List.mem_reverse.mp hr))).2.2
        omega
      · rw [List.pairwise_reverse]
        exact hinv.sorted
    · intro r hr
      rcases (hmem r).mp hr with hr | hr
      · subst hr
        simpa using hnan
      · exact hinv.aging_num r hr
    · intro hdr
      simp only at hdr
      rw [hnd] at hdr
      simp at hdr
    · intro hdr
      simp only at hdr
      rw [hnd] at hdr
      simp at hdr
    · exact hinv.expiry

lemma inv_acquire (now : ℤ) (tmo : JsNum) (s : PoolState) (hinv : Inv s) :
    Inv (acquireStep now tmo s) := by
  rw [acquireStep, enqueueRequest]
  split_ifs with h1 h2
  · exact inv_acquire_rejected s hinv ErrCode.acquireDuringDraining
  · exact inv_acquire_rejected s hinv ErrCode.maxRequestsLimit
  · exact inv_acquire_enqueued s hinv _ rfl rfl (by simpa using h1)

lemma doneCount_append_single_nodone (log : List ServeRec) (e : ServeRec)
    (he : e.hasDone = false) (id : ℕ) :
    doneCount (log ++ [e]) id = doneCount log id := by
  rw [doneCount_append, doneCount_single]
  simp [he]

lemma inv_storeResource (now : ℤ) (r : Resource) (s : PoolState) (hinv : Inv s)
    (hexp : r.expiresAt = jsAdd (JsNum.num r.createdAt) s.cfg.expireTimeout) :
    Inv (storeResource now r s) := by
  by_cases h : s.isDraining = false ∧ s.cfg.validate r = true
  · rw [storeResource_stored now r s h]
    constructor
    · intro id hid
      have := hinv.acc id hid
      simpa [queuedCount] using this
    · exact hinv.queued_props
    · exact hinv.ids_lt
    · intro id hid
      have := hinv.fresh id hid
      simpa [queuedCount] using this
    · exact hinv.sorted
    · exact hinv.aging_num
    · intro hdr
      have hdr2 : s.isDraining = true := hdr
      exact (Bool.false_ne_true (h.1.symm.trans hdr2)).elim
    · intro hdr
      have hdr2 : s.isDraining = true := hdr
      exact (Bool.false_ne_true (h.1.symm.trans hdr2)).elim
    · intro x hx
      have hx' : x ∈ (s.freeResources ++ [{ r with request := none, idleAt := JsNum.num now }])
          ++ s.lentResources := hx
      simp only [List.append_assoc, List.mem_append, List.mem_singleton] at hx'
      show x.expiresAt = jsAdd (JsNum.num x.createdAt) s.cfg.expireTimeout
      rcases hx' with hx' | hx' | hx'
      · exact hinv.expiry x (List.mem_append_left _ hx')
      · subst hx'
        simpa using hexp
      · exact hinv.expiry x (List.mem_append_right _ hx')
  · rw [storeResource_destroyed now r s h]
    exact inv_of_same hinv rfl rfl rfl rfl rfl rfl rfl rfl rfl

lemma inv_acquireSync (now : ℤ) (tmo : JsNum) (s : PoolState) (hinv : Inv s) :
    Inv (acquireSyncStep now tmo s).2 := by
  rw [acquireSyncStep, nextFreeResource_eq]
  cases haux : (nextFreeAux s.cfg.validate s.freeResources).1 with
  | none =>
    constructor
    · intro id hid
      simpa [queuedCount] using hinv.acc id hid
    · exact hinv.queued_props
    · exact hinv.ids_lt
    · intro id hid
      simpa [queuedCount] using hinv.fresh id hid
    · exact hinv.sorted
    · exact hinv.aging_num
    · intro hdr
      have hdr2 : s.isDraining = true := hdr
      show (nextFreeAux s.cfg.validate s.freeResources).2.1 = []
      rw [hinv.drain_free hdr2]
      rfl
    · exact hinv.drain_queues
    · intro x hx
      have hx' : x ∈ (nextFreeAux s.cfg.validate s.freeResources).2.1 ++ s.lentResources := hx
      simp only [List.mem_append] at hx'
      show x.expiresAt = jsAdd (JsNum.num x.createdAt) s.cfg.expireTimeout
      rcases hx' with hx' | hx'
      · exact hinv.expiry x (List.mem_append_left _ ((nextFreeAux_sublist _ _).subset hx'))
      · exact hinv.expiry x (List.mem_append_right _ hx')
  | some r =>
    obtain ⟨hrmem, hrval⟩ := nextFreeAux_some_mem _ _ _ haux
    dsimp only
    split_ifs with hdr
    · rw [serveRequest_err]
      have hdr2 : s.isDraining = true := hdr
      constructor
      · intro id hid
        have hacc := hinv.acc id hid
        rw [show ∀ i, doneCount (s.serveLog ++
            [mkServeRec (createRequest s.cfg now tmo false s.nextRequestId)
              (some ErrCode.acquireDuringDraining)]) i = doneCount s.serveLog i from
          fun i => doneCount_append_single_nodone _ _ rfl i]
        simpa [queuedCount] using hacc
      · intro rq hrq
        obtain ⟨ha, hb, hc⟩ := hinv.queued_props rq hrq
        exact ⟨ha, hb, by show rq.id < s.nextRequestId + 1; omega⟩
      · intro id hid
        show id < s.nextRequestId + 1
        have := hinv.ids_lt id hid
        omega
      · intro id hid
        have hid2 : s.nextRequestId ≤ id := by
          have : s.nextRequestId + 1 ≤ id := hid
          omega
        have hfr := hinv.fresh id hid2
        rw [show doneCount (s.serveLog ++
            [mkServeRec (createRequest s.cfg now tmo false s.nextRequestId)
              (some ErrCode.acquireDuringDraining)]) id = doneCount s.serveLog id from
          doneCount_append_single_nodone _ _ rfl id]
        simpa [queuedCount] using hfr
      · exact hinv.sorted
      · exact hinv.aging_num
      · intro _
        show (nextFreeAux s.cfg.validate s.freeResources).2.1 = []
        rw [hinv.drain_free hdr2]
        rfl
      · exact hinv.drain_queues
      · intro x hx
        have hx' : x ∈ (nextFreeAux s.cfg.validate s.freeResources).2.1 ++ s.lentResources := hx
        simp only [List.mem_append] at hx'
        show x.expiresAt = jsAdd (JsNum.num x.createdAt) s.cfg.expireTimeout
        rcases hx' with hx' | hx'
        · exact hinv.expiry x (List.mem_append_left _ ((nextFreeAux_sublist _ _).subset hx'))
        · exact hinv.expiry x (List.mem_append_right _ hx')
    · rw [serveRequest_ok]
      have hdrf : s.isDraining = false := by
        simpa using hdr
      constructor
      · intro id hid
        have hacc := hinv.acc id hid
        rw [show ∀ i, doneCount (s.serveLog ++
            [mkServeRec (createRequest s.cfg now tmo false s.nextRequestId) none]) i
            = doneCount s.serveLog i from
          fun i => doneCount_append_single_nodone _ _ rfl i]
        simpa [queuedCount] using hacc
      · intro rq hrq
        obtain ⟨ha, hb, hc⟩ := hinv.queued_props rq hrq
        exact ⟨ha, hb, by show rq.id < s.nextRequestId + 1; omega⟩
      · intro id hid
        show id < s.nextRequestId + 1
        have := hinv.ids_lt id hid
        omega
      · intro id hid
        have hid2 : s.nextRequestId ≤ id := by
          have : s.nextRequestId + 1 ≤ id := hid
          omega
        have hfr := hinv.fresh id hid2
        rw [show doneCount (s.serveLog ++
            [mkServeRec (createRequest s.cfg now tmo false s.nextRequestId) none]) id
            = doneCount s.serveLog id from doneCount_append_single_nodone _ _ rfl id]
        simpa [queuedCount] using hfr
      · exact hinv.sorted
      · exact hinv.aging_num
      · intro hdrx
        have hdrx2 : s.isDraining = true := hdrx
        exact (Bool.false_ne_true (hdrf.symm.trans hdrx2)).elim
      · intro hdrx
        have hdrx2 : s.isDraining = true := hdrx
        exact (Bool.false_ne_true (hdrf.symm.trans hdrx2)).elim
      · intro x hx
        have hx' : x ∈ (nextFreeAux s.cfg.validate s.freeResources).2.1 ++
            (s.lentResources ++ [{ r with
              request := some (createRequest s.cfg now tmo false s.nextRequestId).id }]) := hx
        simp only [List.mem_append, List.mem_singleton] at hx'
        show x.expiresAt = jsAdd (JsNum.num x.createdAt) s.cfg.expireTimeout
        rcases hx' with hx' | hx' | hx'
        · exact hinv.expiry x (List.mem_append_left _ ((nextFreeAux_sublist _ _).subset hx'))
        · exact hinv.expiry x (List.mem_append_right _ hx')
        · subst hx'
          simpa using hinv.expiry r (List.mem_append_left _ hrmem)

lemma inv_release (now : ℤ) (v : ℕ) (s : PoolState) (hinv : Inv s) :
    Inv (releaseStep now v s) := by
  rw [releaseStep]
  cases hrm : removeLastMatching (fun r => s.cfg.compare r.value v) s.lentResources with
  | none => exact hinv
  | some pair =>
    obtain ⟨r0, lent'⟩ := pair
    obtain ⟨hsub, hmem⟩ := removeLastMatching_sublist _ _ _ _ hrm
    have hmid : Inv { s with lentResources := lent' } := by
      constructor
      · intro id hid
        simpa [queuedCount] using hinv.acc id hid
      · exact hinv.queued_props
      · exact hinv.ids_lt
      · intro id hid
        simpa [queuedCount] using hinv.fresh id hid
      · exact hinv.sorted
      · exact hinv.aging_num
      · exact hinv.drain_free
      · exact hinv.drain_queues
      · intro x hx
        have hx' : x ∈ s.freeResources ++ lent' := hx
        simp only [List.mem_append] at hx'
        show x.expiresAt = jsAdd (JsNum.num x.createdAt) s.cfg.expireTimeout
        rcases hx' with hx' | hx'
        · exact hinv.expiry x (List.mem_append_left _ hx')
        · exact hinv.expiry x (List.mem_append_right _ (hsub.subset hx'))
    have hexp := hinv.expiry r0 (List.mem_append_right _ hmem)
    exact inv_storeResource now r0 _ hmid hexp

lemma inv_destroy (v : ℕ) (s : PoolState) (hinv : Inv s) : Inv (destroyStep v s) := by
  rw [destroyStep]
  cases hrm : removeLastMatching (fun r => s.cfg.compare r.value v) s.lentResources with
  | some pair =>
    obtain ⟨r0, lent'⟩ := pair
    obtain ⟨hsub, hmem⟩ := removeLastMatching_sublist _ _ _ _ hrm
    constructor
    · intro id hid
      simpa [queuedCount] using hinv.acc id hid
    · exact hinv.queued_props
    · exact hinv.ids_lt
    · intro id hid
      simpa [queuedCount] using hinv.fresh id hid
    · exact hinv.sorted
    · exact hinv.aging_num
    · exact hinv.drain_free
    · exact hinv.drain_queues
    · intro x hx
      have hx' : x ∈ s.freeResources ++ lent' := hx
      simp only [List.mem_append] at hx'
      show x.expiresAt = jsAdd (JsNum.num x.createdAt) s.cfg.expireTimeout
      rcases hx' with hx' | hx'
      · exact hinv.expiry x (List.mem_append_left _ hx')
      · exact hinv.expiry x (List.mem_append_right _ (hsub.subset hx'))
  | none =>
    cases hrm2 : removeLastMatching (fun r => s.cfg.compare r.value v) s.freeResources with
    | none => exact hinv
    | some pair =>
      obtain ⟨r0, free'⟩ := pair
      obtain ⟨hsub, hmem⟩ := removeLastMatching_sublist _ _ _ _ hrm2
      constructor
      · intro id hid
        simpa [queuedCount] using hinv.acc id hid
      · exact hinv.queued_props
      · exact hinv.ids_lt
      · intro id hid
        simpa [queuedCount] using hinv.fresh id hid
      · exact hinv.sorted
      · exact hinv.aging_num
      · intro hdr
        have hdr2 : s.isDraining = true := hdr
        have hf := hinv.drain_free hdr2
        rw [hf] at hrm2
        simp [removeLastMatching] at hrm2
      · exact hinv.drain_queues
      · intro x hx
        have hx' : x ∈ free' ++ s.lentResources := hx
        simp only [List.mem_append] at hx'
        show x.expiresAt = jsAdd (JsNum.num x.createdAt) s.cfg.expireTimeout
        rcases hx' with hx' | hx'
        · exact hinv.expiry x (List.mem_append_left _ (hsub.subset hx'))
        · exact hinv.expiry x (List.mem_append_right _ hx')

lemma inv_createSucceeded (now : ℤ) (v : ℕ) (s : PoolState) (hinv : Inv s) :
    Inv (createSucceededStep now v s) := by
  rw [createSucceededStep]
  split_ifs with h
  · exact hinv
  · exact inv_storeResource now (newResourceRecord s.cfg now v) _
      (inv_of_same hinv rfl rfl rfl rfl rfl rfl rfl rfl rfl) rfl

lemma inv_createFailed (s : PoolState) (hinv : Inv s) : Inv (createFailedStep s) := by
  rw [createFailedStep]
  split_ifs <;> exact inv_of_same hinv rfl rfl rfl rfl rfl rfl rfl rfl rfl

lemma inv_backoffFired (s : PoolState) (hinv : Inv s) : Inv (backoffFiredStep s) := by
  rw [backoffFiredStep]
  split_ifs <;> exact inv_of_same hinv rfl rfl rfl rfl rfl rfl rfl rfl rfl

lemma inv_destroyCompleted (s : PoolState) (hinv : Inv s) : Inv (destroyCompletedStep s) := by
  rw [destroyCompletedStep]
  split_ifs <;> exact inv_of_same hinv rfl rfl rfl rfl rfl rfl rfl rfl rfl

lemma inv_waitDrainTick (s : PoolState) (hinv : Inv s) : Inv (waitDrainTickStep s) := by
  rw [waitDrainTickStep]
  split_ifs <;> exact inv_of_same hinv rfl rfl rfl rfl rfl rfl rfl rfl rfl

lemma inv_setMaintenanceInterval (s : PoolState) (hinv : Inv s) :
    Inv (setMaintenanceIntervalStep s) :=
  inv_of_same hinv rfl rfl rfl rfl rfl rfl rfl rfl rfl

lemma inv_waitDrain (s : PoolState) (hinv : Inv s) : Inv (waitDrain s) := by
  obtain ⟨w1, w2, w3, w4, w5, w6, w7, w8, w9⟩ := waitDrain_same s
  exact inv_of_same hinv w1 w2 w3 w4 w5 w6 w7 w8 w9

lemma inv_maintain (now : ℤ) (s : PoolState) (hinv : Inv s) : Inv (maintain now s) := by
  by_cases hg : s.isDraining = true ∨ s.isMaintaining = true
  · rw [maintain_id now s hg]
    exact hinv
  · have hd : s.isDraining = false := by
      rcases Bool.eq_false_or_eq_true s.isDraining with h | h
      · exact absurd (Or.inl h) hg
      · exact h
    have hm : s.isMaintaining = false := by
      rcases Bool.eq_false_or_eq_true s.isMaintaining with h | h
      · exact absurd (Or.inr h) hg
      · exact h
    obtain ⟨k, j, f, dn, lx, n, hag, hagl, hlog, hfree, hsub, hlent, hlx, hdes, hcre, hcc,
      hcfg, hdr, hnid, hacq, hstopA, hstopB⟩ := maintain_spec now s hd hm
    have hqdA : ∀ rq ∈ s.agingRequests.take k, rq.hasDone = true := fun rq hrq =>
      (hinv.queued_props rq (List.mem_append_left _ (List.mem_of_mem_take hrq))).2.1
    have hqdB : ∀ rq ∈ s.agelessRequests.take j, rq.hasDone = true := fun rq hrq =>
      (hinv.queued_props rq (List.mem_append_right _ (List.mem_of_mem_take hrq))).2.1
    constructor
    · intro id hid
      rw [hacq] at hid
      have hacc := hinv.acc id hid
      simp only [queuedCount] at hacc ⊢
      rw [hag, hagl, hlog, doneCount_append, doneCount_append,
        doneCount_map_entries (agingServeRec now) (fun r => ⟨rfl, rfl⟩) _ hqdA id,
        doneCount_map_entries (fun r => mkServeRec r none) (fun r => ⟨rfl, rfl⟩) _ hqdB id]
      have hsp1 := idCount_take_drop s.agingRequests k id
      have hsp2 := idCount_take_drop s.agelessRequests j id
      omega
    · intro r hr
      rw [hag, hagl] at hr
      simp only [List.mem_append] at hr
      rw [hacq, hnid]
      rcases hr with hr | hr
      · exact hinv.queued_props r (List.mem_append_left _ (List.mem_of_mem_drop hr))
      · exact hinv.queued_props r (List.mem_append_right _ (List.mem_of_mem_drop hr))
    · intro id hid
      rw [hacq] at hid
      rw [hnid]
      exact hinv.ids_lt id hid
    · intro id hid
      rw [hnid] at hid
      have hfr := hinv.fresh id hid
      simp only [queuedCount] at hfr ⊢
      have hup1 : ∀ rq ∈ s.agingRequests.take k, rq.id ≠ id := by
        intro rq hrq
        have := (hinv.queued_props rq (List.mem_append_left _ (List.mem_of_mem_take hrq))).2.2
        omega
      have hup2 : ∀ rq ∈ s.agelessRequests.take j, rq.id ≠ id := by
        intro rq hrq
        have := (hinv.queued_props rq (List.mem_append_right _ (List.mem_of_mem_take hrq))).2.2
        omega
      rw [hag, hagl, hlog, doneCount_append, doneCount_append,
        doneCount_map_eq_zero (agingServeRec now) (fun r => rfl) _ id hup1,
        doneCount_map_eq_zero (fun r => mkServeRec r none) (fun r => rfl) _ id hup2]
      have hsp1 := idCount_take_drop s.agingRequests k id
      have hsp2 := idCount_take_drop s.agelessRequests j id
      omega
    · rw [hag]
      exact List.Pairwise.sublist (List.drop_sublist _ _) hinv.sorted
    · rw [hag]
      intro r hr
      exact hinv.aging_num r (List.mem_of_mem_drop hr)
    · intro hdrx
      exact (Bool.false_ne_true (hdr.symm.trans hdrx)).elim
    · intro hdrx
      exact (Bool.false_ne_true (hdr.symm.trans hdrx)).elim
    · intro x hx
      rw [hfree, hlent] at hx
      simp only [List.mem_append] at hx
      rw [hcfg]
      rcases hx with hx | hx | hx
      · exact hinv.expiry x (List.mem_append_left _ (hsub.subset hx))
      · exact hinv.expiry x (List.mem_append_right _ hx)
      · obtain ⟨r0, hr0, i, hi⟩ := hlx x hx
        subst hi
        simpa using hinv.expiry r0 (List.mem_append_left _ hr0)

lemma inv_scheduledMaintain (now : ℤ) (s : PoolState) (hinv : Inv s) :
    Inv (scheduledMaintainStep now s) :=
  inv_of_same (inv_maintain now s hinv) rfl rfl rfl rfl rfl rfl rfl rfl rfl

lemma inv_drain (s : PoolState) (hinv : Inv s) : Inv (drainStep s) := by
  by_cases h : s.isDraining = true
  · rw [drainStep_again s h]
    exact inv_waitDrain s hinv
  · have hf : s.isDraining = false := by
      rcases Bool.eq_false_or_eq_true s.isDraining with hh | hh
      · exact absurd hh h
      · exact hh
    rw [drainStep_first s hf]
    apply inv_waitDrain
    have hA : ∀ rq ∈ s.agingRequests.reverse, rq.hasDone = true := fun rq hrq =>
      (hinv.queued_props rq (List.mem_append_left _ (List.mem_reverse.mp hrq))).2.1
    have hB : ∀ rq ∈ s.agelessRequests.reverse, rq.hasDone = true := fun rq hrq =>
      (hinv.queued_props rq (List.mem_append_right _ (List.mem_reverse.mp hrq))).2.1
    constructor
    · intro id hid
      have hacc := hinv.acc id hid
      simp only [queuedCount] at hacc ⊢
      show doneCount (s.serveLog
          ++ s.agingRequests.reverse.map (fun r => mkServeRec r (some ErrCode.acquireAbortedByDrain))
          ++ s.agelessRequests.reverse.map (fun r => mkServeRec r (some ErrCode.acquireAbortedByDrain)))
          id + (idCount [] id + idCount [] id) = 1
      rw [doneCount_append, doneCount_append,
        doneCount_map_entries (fun r => mkServeRec r (some ErrCode.acquireAbortedByDrain))
          (fun r => ⟨rfl, rfl⟩) _ hA id,
        doneCount_map_entries (fun r => mkServeRec r (some ErrCode.acquireAbortedByDrain))
          (fun r => ⟨rfl, rfl⟩) _ hB id,
        idCount_reverse, idCount_reverse, idCount_nil]
      omega
    · intro r hr
      have hr' : r ∈ ([] : List Request) ++ ([] : List Request) := hr
      simp at hr'
    · exact hinv.ids_lt
    · intro id hid
      have hid2 : s.nextRequestId ≤ id := hid
      have hfr := hinv.fresh id hid2
      have hup1 : ∀ rq ∈ s.agingRequests.reverse, rq.id ≠ id := by
        intro rq hrq
        have := (hinv.queued_props rq (List.mem_append_left _ (List.mem_reverse.mp hrq))).2.2
        omega
      have hup2 : ∀ rq ∈ s.agelessRequests.reverse, rq.id ≠ id := by
        intro rq hrq
        have := (hinv.queued_props rq (List.mem_append_right _ (List.mem_reverse.mp hrq))).2.2
        omega
      simp only [queuedCount] at hfr ⊢
      constructor
      · show doneCount (s.serveLog
            ++ s.agingRequests.reverse.map (fun r => mkServeRec r (some ErrCode.acquireAbortedByDrain))
            ++ s.agelessRequests.reverse.map (fun r => mkServeRec r (some ErrCode.acquireAbortedByDrain)))
            id = 0
        rw [doneCount_append, doneCount_append,
          doneCount_map_eq_zero (fun r => mkServeRec r (some ErrCode.acquireAbortedByDrain))
            (fun r => rfl) _ id hup1,
          doneCount_map_eq_zero (fun r => mkServeRec r (some ErrCode.acquireAbortedByDrain))
            (fun r => rfl) _ id hup2]
        omega
      · show idCount [] id + idCount [] id = 0
        simp [idCount]
    · show List.Pairwise agingBefore []
      simp
    · intro r hr
      have hr' : r ∈ ([] : List Request) := hr
      simp at hr'
    · intro _
      rfl
    · intro _
      exact ⟨rfl, rfl⟩
    · intro x hx
      have hx' : x ∈ ([] : List Resource) ++ s.lentResources := hx
      simp only [List.nil_append] at hx'
      show x.expiresAt = jsAdd (JsNum.num x.createdAt) s.cfg.expireTimeout
      exact hinv.expiry x (List.mem_append_right _ hx')

lemma inv_step (op : Op) (s : PoolState) (hinv : Inv s) : Inv (step op s) := by
  cases op with
  | acquire now tmo => exact inv_acquire now tmo s hinv
  | acquireSync now tmo => exact inv_acquireSync now tmo s hinv
  | release now v => exact inv_release now v s hinv
  | destroyOp v => exact inv_destroy v s hinv
  | maintainTick now => exact inv_maintain now s hinv
  | scheduledMaintain now => exact inv_scheduledMaintain now s hinv
  | drain => exact inv_drain s hinv
  | createSucceeded now v => exact inv_createSucceeded now v s hinv
  | createFailed => exact inv_createFailed s hinv
  | backoffFired => exact inv_backoffFired s hinv
  | destroyCompleted => exact inv_destroyCompleted s hinv
  | waitDrainTick => exact inv_waitDrainTick s hinv
  | setMaintenanceInterval => exact inv_setMaintenanceInterval s hinv

lemma inv_runOps (ops : List Op) (s : PoolState) (hinv : Inv s) : Inv (runOps ops s) := by
  induction ops generalizing s with
  | nil => exact hinv
  | cons op rest ih => exact ih _ (inv_step op s hinv)

lemma inv_initialFields (cfg : Config) : Inv (initialFields cfg) := by
  constructor
  · intro id hid
    simp [initialFields] at hid
  · intro r hr
    simp [initialFields] at hr
  · intro id hid
    simp [initialFields] at hid
  · intro id _
    constructor
    · rfl
    · rfl
  · show List.Pairwise agingBefore []
    simp
  · intro r hr
    simp [initialFields] at hr
  · intro _
    rfl
  · intro _
    exact ⟨rfl, rfl⟩
  · intro x hx
    simp [initialFields] at hx

lemma inv_reachable (cfg : Config) (s : PoolState) (h : Reachable cfg s) : Inv s := by
  obtain ⟨now0, ops, hrun⟩ := h
  rw [← hrun]
  exact inv_runOps ops _ (inv_maintain now0 _ (inv_initialFields cfg))

lemma storeResource_cfg (now : ℤ) (r : Resource) (s : PoolState) :
    (storeResource now r s).cfg = s.cfg := by
  rw [storeResource]
  split_ifs with h
  · rw [scheduleMaintainance_eq]
  · rfl

lemma maintain_cfg (now : ℤ) (s : PoolState) : (maintain now s).cfg = s.cfg := by
  by_cases hg : s.isDraining = true ∨ s.isMaintaining = true
  · rw [maintain_id now s hg]
  · have hd : s.isDraining = false := by
      rcases Bool.eq_false_or_eq_true s.isDraining with h | h
      · exact absurd (Or.inl h) hg
      · exact h
    have hm : s.isMaintaining = false := by
      rcases Bool.eq_false_or_eq_true s.isMaintaining with h | h
      · exact absurd (Or.inr h) hg
      · exact h
    obtain ⟨k, j, f, dn, lx, n, hag, hagl, hlog, hfree, hsub, hlent, hlx, hdes, hcre, hcc,
      hcfg, hdr, hnid, hacq, hstopA, hstopB⟩ := maintain_spec now s hd hm
    exact hcfg

lemma step_cfg (op : Op) (s : PoolState) : (step op s).cfg = s.cfg := by
  cases op with
  | acquire now tmo =>
    show (acquireStep now tmo s).cfg = s.cfg
    rw [acquireStep, enqueueRequest]
    split_ifs with h1 h2
    · rfl
    · rfl
    · rw [scheduleMaintainance_eq]
      show (insertRequestByAcquireTimeout _ _).cfg = s.cfg
      rw [insertRequestByAcquireTimeout]
      split_ifs <;> rfl
  | acquireSync now tmo =>
    show ((acquireSyncStep now tmo s).2).cfg = s.cfg
    rw [acquireSyncStep, nextFreeResource_eq]
    cases haux : (nextFreeAux s.cfg.validate s.freeResources).1 with
    | none => rfl
    | some r =>
      dsimp only
      split_ifs <;> rfl
  | release now v =>
    show (releaseStep now v s).cfg = s.cfg
    rw [releaseStep]
    cases hrm : removeLastMatching (fun r => s.cfg.compare r.value v) s.lentResources with
    | none => rfl
    | some pair =>
      obtain ⟨r0, lent'⟩ := pair
      exact storeResource_cfg now r0 _
  | destroyOp v =>
    show (destroyStep v s).cfg = s.cfg
    rw [destroyStep]
    cases hrm : removeLastMatching (fun r => s.cfg.compare r.value v) s.lentResources with
    | some pair => obtain ⟨r0, lent'⟩ := pair; rfl
    | none =>
      cases hrm2 : removeLastMatching (fun r => s.cfg.compare r.value v) s.freeResources with
      | some pair => obtain ⟨r0, free'⟩ := pair; rfl
      | none => rfl
  | maintainTick now => exact maintain_cfg now s
  | scheduledMaintain now => exact maintain_cfg now s
  | drain =>
    show (drainStep s).cfg = s.cfg
    by_cases h : s.isDraining = true
    · rw [drainStep_again s h, waitDrain]
      split_ifs <;> rfl
    · have hf : s.isDraining = false := by
        rcases Bool.eq_false_or_eq_true s.isDraining with hh | hh
        · exact absurd hh h
        · exact hh
      rw [drainStep_first s hf, waitDrain]
      split_ifs <;> rfl
  | createSucceeded now v =>
    show (createSucceededStep now v s).cfg = s.cfg
    rw [createSucceededStep]
    split_ifs with h
    · rfl
    · exact storeResource_cfg now _ _
  | createFailed =>
    show (createFailedStep s).cfg = s.cfg
    rw [createFailedStep]
    split_ifs <;> rfl
  | backoffFired =>
    show (backoffFiredStep s).cfg = s.cfg
    rw [backoffFiredStep]
    split_ifs <;> rfl
  | destroyCompleted =>
    show (destroyCompletedStep s).cfg = s.cfg
    rw [destroyCompletedStep]
    split_ifs <;> rfl
  | waitDrainTick =>
    show (waitDrainTickStep s).cfg = s.cfg
    rw [waitDrainTickStep]
    split_ifs <;> rfl
  | setMaintenanceInterval => rfl

lemma runOps_cfg (ops : List Op) (s : PoolState) : (runOps ops s).cfg = s.cfg := by
  induction ops generalizing s with
  | nil => rfl
  | cons op rest ih => exact (ih _).trans (step_cfg op s)

lemma reachable_cfg (cfg : Config) (s : PoolState) (h : Reachable cfg s) : s.cfg = cfg := by
  obtain ⟨now0, ops, hrun⟩ := h
  rw [← hrun, runOps_cfg]
  exact maintain_cfg now0 _

lemma waitDrain_sum (s : PoolState) :
    (waitDrain s).drainDoneCount + (waitDrain s).drainWaiters =
      s.drainDoneCount + s.drainWaiters + 1 := by
  rw [waitDrain]
  split_ifs <;> simp <;> omega

lemma step_preserves_draining (op : Op) (s : PoolState) (h : s.isDraining = true) :
    (step op s).isDraining = true := by
  cases op with
  | acquire now tmo =>
    show (acquireStep now tmo s).isDraining = true
    rw [acquireStep, enqueueRequest]
    split_ifs <;>
      first
        | exact h
        | (rw [scheduleMaintainance_eq]
           show (insertRequestByAcquireTimeout _ _).isDraining = true
           rw [insertRequestByAcquireTimeout]
           split_ifs <;> exact h)
  | acquireSync now tmo =>
    show ((acquireSyncStep now tmo s).2).isDraining = true
    rw [acquireSyncStep, nextFreeResource_eq]
    cases haux : (nextFreeAux s.cfg.validate s.freeResources).1 with
    | none => exact h
    | some r =>
      dsimp only
      split_ifs <;> exact h
  | release now v =>
    show (releaseStep now v s).isDraining = true
    rw [releaseStep]
    cases hrm : removeLastMatching (fun r => s.cfg.compare r.value v) s.lentResources with
    | none => exact h
    | some pair =>
      obtain ⟨r0, lent'⟩ := pair
      show (storeResource now r0 { s with lentResources := lent' }).isDraining = true
      rw [storeResource]
      split_ifs <;>
        first
          | exact h
          | (rw [scheduleMaintainance_eq]; exact h)
  | destroyOp v =>
    show (destroyStep v s).isDraining = true
    rw [destroyStep]
    cases hrm : removeLastMatching (fun r => s.cfg.compare r.value v) s.lentResources with
    | some pair => obtain ⟨r0, lent'⟩ := pair; exact h
    | none =>
      cases hrm2 : removeLastMatching (fun r => s.cfg.compare r.value v) s.freeResources with
      | some pair => obtain ⟨r0, free'⟩ := pair; exact h
      | none => exact h
  | maintainTick now =>
    show (maintain now s).isDraining = true
    rw [maintain_id now s (Or.inl h)]
    exact h
  | scheduledMaintain now =>
    show (maintain now s).isDraining = true
    rw [maintain_id now s (Or.inl h)]
    exact h
  | drain =>
    show (drainStep s).isDraining = true
    rw [drainStep_again s h, waitDrain]
    split_ifs <;> exact h
  | createSucceeded now v =>
    show (createSucceededStep now v s).isDraining = true
    rw [createSucceededStep]
    split_ifs with h0
    · exact h
    · rw [storeResource]
      split_ifs <;>
        first
          | exact h
          | (rw [scheduleMaintainance_eq]; exact h)
  | createFailed =>
    show (createFailedStep s).isDraining = true
    rw [createFailedStep]
    split_ifs <;> exact h
  | backoffFired =>
    show (backoffFiredStep s).isDraining = true
    rw [backoffFiredStep]
    split_ifs <;> exact h
  | destroyCompleted =>
    show (destroyCompletedStep s).isDraining = true
    rw [destroyCompletedStep]
    split_ifs <;> exact h
  | waitDrainTick =>
    show (waitDrainTickStep s).isDraining = true
    rw [waitDrainTickStep]
    split_ifs <;> exact h
  | setMaintenanceInterval => exact h

/-- Helper: the creation loop of `_createResources` runs `(topUpSpec s).toNat`
times (the spec-side `extra` pipeline, clamped at zero). -/
theorem createResources_topUpSpec (s : PoolState) :
    (createResources s).createCalls = s.createCalls + (topUpSpec s).toNat ∧
    (createResources s).creatingResourceCount =
      s.creatingResourceCount + (topUpSpec s).toNat := by
  have h : createResourcesExtra s = topUpSpec s := by
    unfold createResourcesExtra topUpSpec
    have hc : s.agelessRequests.length + s.agingRequests.length =
        s.agingRequests.length + s.agelessRequests.length := Nat.add_comm _ _
    cases hm : s.cfg.maxCreating with
    | num m =>
      by_cases h0 : 0 < m
      · simp only [hc, hm, jsGtB, jsNumVal, decide_eq_true_eq, if_pos h0, min_def, gt_iff_lt]
        split_ifs <;> omega
      · simp only [hc, hm, jsGtB, jsNumVal, decide_eq_true_eq, if_neg h0, gt_iff_lt]
    | nan => simp only [hc, hm, jsGtB, gt_iff_lt]; simp
    | undef => simp only [hc, hm, jsGtB, gt_iff_lt]; simp
  constructor <;> simp [createResources, createLoopCount_toNat, h]

lemma initPool_exCfg (now0 : ℤ) : initPool exCfg now0 = initialFields exCfg := by
  simp [initPool, maintain, initialFields, exCfg, destroyExpiredResources,
    destroyIdleResources, destroyDeadResources, serveAgingRequests, serveAgelessRequests,
    createResources, createResourcesExtra, createLoopCount, countResources, jsGtB,
    nextFreeResource, nextFreeAux]

/-! ## Claim theorems -/

/-- C1: every request created by `acquire` has its completion callback invoked
exactly once.  In every reachable state, for every id allocated by an
`acquire` call, the number of completion firings recorded for it plus the
number of times it still sits in a queue equals one — so the completion never
fires twice, fires as soon as the request leaves the queues (served with a
resource, timed out, rejected at admission, or cancelled), and never stays
unfired once the pool is draining (drain empties both queues). -/
theorem acquire_completion_exactly_once (cfg : Config) (s : PoolState)
    (h : Reachable cfg s) (id : ℕ) (hid : id ∈ s.acquiredIds) :
    doneCount s.serveLog id + queuedCount s id = 1 ∧
    (s.isDraining = true → doneCount s.serveLog id = 1) := by
  have hinv := inv_reachable cfg s h
  refine ⟨hinv.acc id hid, ?_⟩
  intro hdr
  have hq := hinv.drain_queues hdr
  have hacc := hinv.acc id hid
  simp only [queuedCount, hq.1, hq.2, idCount_nil] at hacc
  omega

theorem acquire_completion_exactly_once_witness :
    0 ∈ (runOps [Op.acquire 0 (JsNum.num 5)] (initPool exCfg 0)).acquiredIds ∧
    (doneCount (runOps [Op.acquire 0 (JsNum.num 5)] (initPool exCfg 0)).serveLog 0 +
        queuedCount (runOps [Op.acquire 0 (JsNum.num 5)] (initPool exCfg 0)) 0 = 1 ∧
      ((runOps [Op.acquire 0 (JsNum.num 5)] (initPool exCfg 0)).isDraining = true →
        doneCount (runOps [Op.acquire 0 (JsNum.num 5)] (initPool exCfg 0)).serveLog 0 = 1)) :=
  ⟨by
    rw [initPool_exCfg]
    simp [runOps, step, acquireStep, enqueueRequest, createRequest, serveRequest,
      scheduleMaintainance, insertRequestByAcquireTimeout, insertAgingRev, initialFields,
      exCfg, jsGeB, jsIsNaN, jsAdd, jsOr, jsTruthy, mkServeRec],
   acquire_completion_exactly_once exCfg _
    ⟨0, [Op.acquire 0 (JsNum.num 5)], rfl⟩ 0 (by
      rw [initPool_exCfg]
      simp [runOps, step, acquireStep, enqueueRequest, createRequest, serveRequest,
        scheduleMaintainance, insertRequestByAcquireTimeout, insertAgingRev, initialFields,
        exCfg, jsGeB, jsIsNaN, jsAdd, jsOr, jsTruthy, mkServeRec])⟩

/-- C2: admission control of `acquire`.  If the pool is draining the request's
completion fires immediately with `ACQUIRE_DURING_DRAINING` and the queues are
untouched; else if `|ageless|+|aging| >= maxRequests` holds (a JS `>=`, false
when the cap is unset) the completion fires immediately with
`MAX_REQUESTS_LIMIT`; otherwise no completion fires, the request is placed in
the ageless queue (appended) when its deadline is `NaN` or spliced into the
aging queue at a deadline-sorted position (after equal deadlines), and
on-demand maintenance is scheduled. -/
theorem acquire_admission_control (now : ℤ) (tmo : JsNum) (s : PoolState) :
    (s.isDraining = true →
      (acquireStep now tmo s).serveLog =
        s.serveLog ++ [⟨s.nextRequestId, some ErrCode.acquireDuringDraining, true⟩] ∧
      (acquireStep now tmo s).agingRequests = s.agingRequests ∧
      (acquireStep now tmo s).agelessRequests = s.agelessRequests) ∧
    (s.isDraining = false →
      jsGeB (JsNum.num ((s.agelessRequests.length : ℤ) + (s.agingRequests.length : ℤ)))
        s.cfg.maxRequests = true →
      (acquireStep now tmo s).serveLog =
        s.serveLog ++ [⟨s.nextRequestId, some ErrCode.maxRequestsLimit, true⟩] ∧
      (acquireStep now tmo s).agingRequests = s.agingRequests ∧
      (acquireStep now tmo s).agelessRequests = s.agelessRequests) ∧
    (s.isDraining = false →
      jsGeB (JsNum.num ((s.agelessRequests.length : ℤ) + (s.agingRequests.length : ℤ)))
        s.cfg.maxRequests = false →
      (acquireStep now tmo s).serveLog = s.serveLog ∧
      (acquireStep now tmo s).isMaintenanceScheduled = true ∧
      (jsIsNaN (createRequest s.cfg now tmo true s.nextRequestId).acquireTimeoutAt = true →
        (acquireStep now tmo s).agelessRequests =
          s.agelessRequests ++ [createRequest s.cfg now tmo true s.nextRequestId] ∧
        (acquireStep now tmo s).agingRequests = s.agingRequests) ∧
      (jsIsNaN (createRequest s.cfg now tmo true s.nextRequestId).acquireTimeoutAt = false →
        (acquireStep now tmo s).agelessRequests = s.agelessRequests ∧
        ∃ l1 l2, s.agingRequests = l1 ++ l2 ∧
          (acquireStep now tmo s).agingRequests =
            l1 ++ createRequest s.cfg now tmo true s.nextRequestId :: l2 ∧
          (∀ x ∈ l2, jsLtB (createRequest s.cfg now tmo true s.nextRequestId).acquireTimeoutAt
              x.acquireTimeoutAt = true) ∧
          (∀ x, l1.getLast? = some x →
            jsLtB (createRequest s.cfg now tmo true s.nextRequestId).acquireTimeoutAt
              x.acquireTimeoutAt = false))) := by
  refine ⟨?_, ?_, ?_⟩
  · intro hd
    rw [acquireStep, enqueueRequest]
    split_ifs with h1 h2 <;>
      first
        | exact ⟨rfl, rfl, rfl⟩
        | exact absurd hd h1
  · intro hd hcap
    rw [acquireStep, enqueueRequest]
    split_ifs with h1 h2 <;>
      first
        | exact absurd (show s.isDraining = true from h1) (by simp [hd])
        | exact ⟨rfl, rfl, rfl⟩
        | exact absurd hcap h2
  · intro hd hncap
    rw [acquireStep, enqueueRequest]
    split_ifs with h1 h2
    · exact absurd (show s.isDraining = true from h1) (by simp [hd])
    · exact absurd (show jsGeB (JsNum.num ((s.agelessRequests.length : ℤ) +
          (s.agingRequests.length : ℤ))) s.cfg.maxRequests = true from h2) (by simp [hncap])
    · rw [scheduleMaintainance_eq, insertRequestByAcquireTimeout]
      split_ifs with hnan
      · exact ⟨rfl, rfl, fun _ => ⟨rfl, rfl⟩,
          fun hfalse => absurd hnan (by simp [hfalse])⟩
      · refine ⟨rfl, rfl, fun htrue => absurd htrue (by simpa using hnan), ?_⟩
        intro _
        refine ⟨rfl, ?_⟩
        obtain ⟨m1, m2, hsplit, hins, hm1, hm2⟩ :=
          insertAgingRev_split (createRequest s.cfg now tmo true s.nextRequestId)
            s.agingRequests.reverse
        refine ⟨m2.reverse, m1.reverse, ?_, ?_, ?_, ?_⟩
        · have h5 := congrArg List.reverse hsplit
          simpa using h5
        · show (insertAgingRev _ s.agingRequests.reverse).reverse = _
          rw [hins]
          simp
        · intro x hx
          exact hm1 x (List.mem_reverse.mp hx)
        · intro x hx
          rw [List.getLast?_reverse] at hx
          exact hm2 x hx

theorem acquire_admission_control_witness :
    ((runOps [Op.drain] (initPool exCfg 0)).isDraining = true) ∧
    ((acquireStep 0 (JsNum.num 5) (runOps [Op.drain] (initPool exCfg 0))).serveLog =
      (runOps [Op.drain] (initPool exCfg 0)).serveLog ++
        [⟨(runOps [Op.drain] (initPool exCfg 0)).nextRequestId,
          some ErrCode.acquireDuringDraining, true⟩] ∧
     (acquireStep 0 (JsNum.num 5) (runOps [Op.drain] (initPool exCfg 0))).agingRequests =
       (runOps [Op.drain] (initPool exCfg 0)).agingRequests ∧
     (acquireStep 0 (JsNum.num 5) (runOps [Op.drain] (initPool exCfg 0))).agelessRequests =
       (runOps [Op.drain] (initPool exCfg 0)).agelessRequests) :=
  ⟨by
    rw [initPool_exCfg]
    simp [runOps, step, drainStep, waitDrain, serveAllAborted, countResources, initialFields],
   (acquire_admission_control 0 (JsNum.num 5) _).1 (by
    rw [initPool_exCfg]
    simp [runOps, step, drainStep, waitDrain, serveAllAborted, countResources, initialFields])⟩

/-- C3: serving discipline of a maintenance pass.  When `_maintain` actually
runs (not draining, not re-entered), it dequeues a prefix of the aging queue
and then a prefix of the ageless queue; every aging head produces exactly one
log entry — `ACQUIRE_TIMEOUT_ERROR` when `now` is past its deadline, success
with a resource otherwise (`agingServeRec`) — and every served ageless head a
success entry, with all aging entries strictly before all ageless entries; if
the aging queue stops nonempty its head is not timed out and no free resource
remains, and if the ageless queue stops nonempty no free resource remains. -/
theorem maintain_serving_discipline (now : ℤ) (s : PoolState)
    (hd : s.isDraining = false) (hm : s.isMaintaining = false) :
    ∃ k j,
      (maintain now s).agingRequests = s.agingRequests.drop k ∧
      (maintain now s).agelessRequests = s.agelessRequests.drop j ∧
      (maintain now s).serveLog = s.serveLog
          ++ (s.agingRequests.take k).map (agingServeRec now)
          ++ (s.agelessRequests.take j).map (fun r => mkServeRec r none) ∧
      ((maintain now s).agingRequests ≠ [] →
        (∀ rq, (maintain now s).agingRequests.head? = some rq →
          jsGtB (JsNum.num now) rq.acquireTimeoutAt = false) ∧
        (maintain now s).freeResources = []) ∧
      ((maintain now s).agelessRequests ≠ [] → (maintain now s).freeResources = []) := by
  obtain ⟨k, j, f, dn, lx, n, hag, hagl, hlog, hfree, hsub, hlent, hlx, hdes, hcre, hcc,
    hcfg, hdr, hnid, hacq, hstopA, hstopB⟩ := maintain_spec now s hd hm
  refine ⟨k, j, hag, hagl, hlog, ?_, ?_⟩
  · intro hne
    rw [hag] at hne ⊢
    cases hh : (s.agingRequests.drop k).head? with
    | none =>
      rw [List.head?_eq_none_iff] at hh
      exact absurd hh hne
    | some rq =>
      obtain ⟨hng, hfa⟩ := hstopA rq hh
      refine ⟨?_, ?_⟩
      · intro rq' hrq'
        obtain rfl : rq = rq' := by injection hrq'
        exact hng
      · rw [hfree]
        exact hfa
  · intro hne
    rw [hagl] at hne
    rw [hfree]
    exact hstopB hne

theorem maintain_serving_discipline_witness :
    (initialFields exCfg).isDraining = false ∧ (initialFields exCfg).isMaintaining = false ∧
    (∃ k j,
      (maintain 0 (initialFields exCfg)).agingRequests =
        (initialFields exCfg).agingRequests.drop k ∧
      (maintain 0 (initialFields exCfg)).agelessRequests =
        (initialFields exCfg).agelessRequests.drop j ∧
      (maintain 0 (initialFields exCfg)).serveLog = (initialFields exCfg).serveLog
          ++ ((initialFields exCfg).agingRequests.take k).map (agingServeRec 0)
          ++ ((initialFields exCfg).agelessRequests.take j).map (fun r => mkServeRec r none) ∧
      ((maintain 0 (initialFields exCfg)).agingRequests ≠ [] →
        (∀ rq, (maintain 0 (initialFields exCfg)).agingRequests.head? = some rq →
          jsGtB (JsNum.num 0) rq.acquireTimeoutAt = false) ∧
        (maintain 0 (initialFields exCfg)).freeResources = []) ∧
      ((maintain 0 (initialFields exCfg)).agelessRequests ≠ [] →
        (maintain 0 (initialFields exCfg)).freeResources = [])) :=
  ⟨rfl, rfl, maintain_serving_discipline 0 (initialFields exCfg) rfl rfl⟩

/-- C4: in every reachable state the aging queue is sorted: all its deadlines
are genuine numbers and any earlier entry has a strictly smaller deadline or
an equal deadline with a smaller id — ids are allocated in acquire order, so
equal deadlines appear in enqueue order (`agingBefore`).  Being an invariant
of the transition system, every operation (enqueue insertion, serving,
timeout removal, drain cancellation) preserves it. -/
theorem aging_queue_sorted (cfg : Config) (s : PoolState) (h : Reachable cfg s) :
    s.agingRequests.Pairwise agingBefore ∧
    ∀ r ∈ s.agingRequests, ∃ n, r.acquireTimeoutAt = JsNum.num n := by
  have hinv := inv_reachable cfg s h
  exact ⟨hinv.sorted, fun r hr => jsIsNaN_eq_false (hinv.aging_num r hr)⟩

theorem aging_queue_sorted_witness :
    (runOps [Op.acquire 0 (JsNum.num 5), Op.acquire 0 (JsNum.num 3)]
      (initPool exCfg 0)).agingRequests.Pairwise agingBefore ∧
    ∀ r ∈ (runOps [Op.acquire 0 (JsNum.num 5), Op.acquire 0 (JsNum.num 3)]
      (initPool exCfg 0)).agingRequests, ∃ n, r.acquireTimeoutAt = JsNum.num n :=
  aging_queue_sorted exCfg _
    ⟨0, [Op.acquire 0 (JsNum.num 5), Op.acquire 0 (JsNum.num 3)], rfl⟩

/-- C5: the top-up step issues exactly the number of create calls given by the
spec's `extra` pipeline when that number is positive, and none otherwise: the
ghost call counter and the creating count both grow by `(topUpSpec s).toNat`,
where `topUpSpec` is the spec's formula (floor, cap, minus creating, burst
cap) and `.toNat` is "when positive, zero otherwise". -/
theorem createResources_topUp (s : PoolState) :
    (createResources s).createCalls = s.createCalls + (topUpSpec s).toNat ∧
    (createResources s).creatingResourceCount =
      s.creatingResourceCount + (topUpSpec s).toNat :=
  createResources_topUpSpec s

/-- C6: `drain` is idempotent-by-effect.  A first call sets the draining
flag, stops the periodic timer, completes every queued aging and ageless
request with `ACQUIRE_ABORTED_BY_DRAIN` (one abort entry per queued request,
queues left empty), and destroys every free resource; any call — first or
not — then waits: at total population zero the `drain` event is emitted and
the completion fires, otherwise the completion parks and every tick re-checks
(firing all parked completions once the total reaches zero, no effect
before).  Two drains fire two completions, and every transition keeps the
pool draining. -/
theorem drain_idempotent_by_effect (s : PoolState) :
    (s.isDraining = false →
      (drainStep s).isDraining = true ∧
      (drainStep s).periodicOn = false ∧
      (drainStep s).agingRequests = [] ∧
      (drainStep s).agelessRequests = [] ∧
      (drainStep s).freeResources = [] ∧
      (drainStep s).destroyingResourceCount =
        s.destroyingResourceCount + s.freeResources.length ∧
      (drainStep s).serveLog = s.serveLog
        ++ s.agingRequests.reverse.map (fun r => mkServeRec r (some ErrCode.acquireAbortedByDrain))
        ++ s.agelessRequests.reverse.map
            (fun r => mkServeRec r (some ErrCode.acquireAbortedByDrain)) ∧
      (drainStep s).drainDoneCount + (drainStep s).drainWaiters =
        s.drainDoneCount + s.drainWaiters + 1) ∧
    (s.isDraining = true → drainStep s = waitDrain s) ∧
    (countResources s = 0 →
      waitDrain s = { s with drainEvents := s.drainEvents + 1,
                             drainDoneCount := s.drainDoneCount + 1 } ∧
      waitDrainTickStep s = { s with drainEvents := s.drainEvents + s.drainWaiters,
                                     drainDoneCount := s.drainDoneCount + s.drainWaiters,
                                     drainWaiters := 0 }) ∧
    (countResources s ≠ 0 →
      waitDrain s = { s with drainWaiters := s.drainWaiters + 1 } ∧
      waitDrainTickStep s = s) ∧
    (s.isDraining = false →
      (drainStep (drainStep s)).drainDoneCount + (drainStep (drainStep s)).drainWaiters =
        s.drainDoneCount + s.drainWaiters + 2) ∧
    (∀ op, s.isDraining = true → (step op s).isDraining = true) := by
  have hw : ∀ t : PoolState, (waitDrain t).isDraining = t.isDraining ∧
      (waitDrain t).periodicOn = t.periodicOn ∧
      (waitDrain t).agingRequests = t.agingRequests ∧
      (waitDrain t).agelessRequests = t.agelessRequests ∧
      (waitDrain t).freeResources = t.freeResources ∧
      (waitDrain t).destroyingResourceCount = t.destroyingResourceCount ∧
      (waitDrain t).serveLog = t.serveLog := by
    intro t
    rw [waitDrain]
    split_ifs <;> exact ⟨rfl, rfl, rfl, rfl, rfl, rfl, rfl⟩
  refine ⟨?_, ?_, ?_, ?_, ?_, ?_⟩
  · intro hd
    rw [drainStep_first s hd]
    obtain ⟨w1, w2, w3, w4, w5, w6, w7⟩ := hw _
    refine ⟨w1.trans rfl, w2.trans rfl, w3.trans rfl, w4.trans rfl, w5.trans rfl,
      w6.trans rfl, w7.trans rfl, ?_⟩
    rw [waitDrain_sum]
  · intro hd
    exact drainStep_again s hd
  · intro hc
    refine ⟨?_, ?_⟩
    · rw [waitDrain, if_pos hc]
    · rw [waitDrainTickStep, if_pos hc]
  · intro hc
    refine ⟨?_, ?_⟩
    · rw [waitDrain, if_neg hc]
    · rw [waitDrainTickStep, if_neg hc]
  · intro hd
    have h1 : (drainStep s).isDraining = true := by
      rw [drainStep_first s hd]
      exact ((hw _).1).trans rfl
    rw [drainStep_again _ h1, waitDrain_sum, drainStep_first s hd, waitDrain_sum]
  · intro op hd
    exact step_preserves_draining op s hd

theorem drain_idempotent_by_effect_witness :
    (initialFields exCfg).isDraining = false ∧
    ((drainStep (initialFields exCfg)).isDraining = true ∧
      (drainStep (initialFields exCfg)).periodicOn = false ∧
      (drainStep (initialFields exCfg)).agingRequests = [] ∧
      (drainStep (initialFields exCfg)).agelessRequests = [] ∧
      (drainStep (initialFields exCfg)).freeResources = [] ∧
      (drainStep (initialFields exCfg)).destroyingResourceCount =
        (initialFields exCfg).destroyingResourceCount +
          (initialFields exCfg).freeResources.length ∧
      (drainStep (initialFields exCfg)).serveLog = (initialFields exCfg).serveLog
        ++ (initialFields exCfg).agingRequests.reverse.map
            (fun r => mkServeRec r (some ErrCode.acquireAbortedByDrain))
        ++ (initialFields exCfg).agelessRequests.reverse.map
            (fun r => mkServeRec r (some ErrCode.acquireAbortedByDrain)) ∧
      (drainStep (initialFields exCfg)).drainDoneCount +
          (drainStep (initialFields exCfg)).drainWaiters =
        (initialFields exCfg).drainDoneCount + (initialFields exCfg).drainWaiters + 1) ∧
    ((drainStep (drainStep (initialFields exCfg))).drainDoneCount +
        (drainStep (drainStep (initialFields exCfg))).drainWaiters =
      (initialFields exCfg).drainDoneCount + (initialFields exCfg).drainWaiters + 2) :=
  ⟨rfl, (drain_idempotent_by_effect (initialFields exCfg)).1 rfl,
   (drain_idempotent_by_effect (initialFields exCfg)).2.2.2.2.1 rfl⟩

/-- C7: `expires_at` is fixed at creation and never changes until the record
is destroyed: in every reachable state every live record (free or lent)
still satisfies `expiresAt = createdAt + expire_timeout` with its original
`createdAt`; and returning a released record to the free list rewrites only
its `idleAt` stamp and clears the `request` back-pointer, leaving `value`,
`createdAt` and `expiresAt` untouched (visible in the record update). -/
theorem resource_expiry_frame (cfg : Config) (s : PoolState) (h : Reachable cfg s) :
    (∀ r, r ∈ s.freeResources ++ s.lentResources →
      r.expiresAt = jsAdd (JsNum.num r.createdAt) cfg.expireTimeout) ∧
    (∀ (t : PoolState) (now : ℤ) (r : Resource),
      t.isDraining = false → t.cfg.validate r = true →
      storeResource now r t =
        { t with
          freeResources := t.freeResources ++
            [{ r with request := none, idleAt := JsNum.num now }],
          isMaintenanceScheduled := true }) := by
  have hinv := inv_reachable cfg s h
  have hcfg := reachable_cfg cfg s h
  refine ⟨?_, ?_⟩
  · intro r hr
    rw [← hcfg]
    exact hinv.expiry r hr
  · intro t now r h1 h2
    exact storeResource_stored now r t ⟨h1, h2⟩

theorem resource_expiry_frame_witness :
    (∀ r, r ∈ (runOps [Op.createSucceeded 5 41] (initPool exCfgMin1 0)).freeResources ++
        (runOps [Op.createSucceeded 5 41] (initPool exCfgMin1 0)).lentResources →
      r.expiresAt = jsAdd (JsNum.num r.createdAt) exCfgMin1.expireTimeout) ∧
    (∀ (t : PoolState) (now : ℤ) (r : Resource),
      t.isDraining = false → t.cfg.validate r = true →
      storeResource now r t =
        { t with
          freeResources := t.freeResources ++
            [{ r with request := none, idleAt := JsNum.num now }],
          isMaintenanceScheduled := true }) :=
  resource_expiry_frame exCfgMin1 _ ⟨0, [Op.createSucceeded 5 41], rfl⟩

/-- C8 (counterexample): with no `expire_timeout` configured, the record
built by `_createResource` carries `expiresAt = NaN` (the code always assigns
`now + expireTimeout`); the claim says the field is absent, and an absent
field reads as `undefined` (`expiresAtPerSpec`), which differs from `NaN`. -/
theorem created_expiresAt_not_absent :
    (newResourceRecord exCfg 5 42).expiresAt = JsNum.nan ∧
    (newResourceRecord exCfg 5 42).expiresAt ≠ expiresAtPerSpec exCfg 5 :=
  ⟨rfl, by decide⟩

/-- C8 (amended): the stored record's `expiresAt` equals
`created_at + expire_timeout` when an absolute lifetime is configured; when
no `expire_timeout` is configured the field is still assigned, with the value
`NaN` (which never satisfies the expiry comparison), rather than being
absent. -/
theorem created_expiresAt_amended (cfg : Config) (now : ℤ) (v : ℕ) :
    (∀ t : ℤ, cfg.expireTimeout = JsNum.num t →
      (newResourceRecord cfg now v).expiresAt = JsNum.num (now + t)) ∧
    (cfg.expireTimeout = JsNum.undef →
      (newResourceRecord cfg now v).expiresAt = JsNum.nan) := by
  constructor
  · intro t ht
    simp [newResourceRecord, jsAdd, ht]
  · intro ht
    simp [newResourceRecord, jsAdd, ht]

theorem created_expiresAt_amended_witness :
    (exCfgExpire.expireTimeout = JsNum.num 500 ∧
      (newResourceRecord exCfgExpire 5 42).expiresAt = JsNum.num (5 + 500)) ∧
    (exCfg.expireTimeout = JsNum.undef ∧
      (newResourceRecord exCfg 5 42).expiresAt = JsNum.nan) :=
  ⟨⟨rfl, (created_expiresAt_amended exCfgExpire 5 42).1 500 rfl⟩,
   ⟨rfl, (created_expiresAt_amended exCfg 5 42).2 rfl⟩⟩

/-- C9: in every reachable draining state the free list is empty (drain
destroys all free resources, storage while draining destroys instead of
storing, and maintenance does not run while draining); consequently
`acquireSync` on a draining pool returns nothing and leaves the state
entirely unchanged — in particular its drain-error branch (which would
complete a synthetic request with `ACQUIRE_DURING_DRAINING`) never runs, as
the serve log stays untouched. -/
theorem draining_free_empty (cfg : Config) (s : PoolState) (h : Reachable cfg s)
    (hdr : s.isDraining = true) :
    s.freeResources = [] ∧ ∀ now tmo, acquireSyncStep now tmo s = (none, s) := by
  have hinv := inv_reachable cfg s h
  have hfree := hinv.drain_free hdr
  refine ⟨hfree, ?_⟩
  intro now tmo
  have haux : nextFreeAux s.cfg.validate s.freeResources = (none, [], 0) := by
    rw [hfree]
    rfl
  rw [acquireSyncStep, nextFreeResource_eq, haux]
  dsimp only
  rw [Prod.mk.injEq]
  refine ⟨rfl, ?_⟩
  rw [← hfree]
  simp

theorem draining_free_empty_witness :
    ((runOps [Op.drain] (initPool exCfg 0)).isDraining = true) ∧
    ((runOps [Op.drain] (initPool exCfg 0)).freeResources = [] ∧
      ∀ now tmo, acquireSyncStep now tmo (runOps [Op.drain] (initPool exCfg 0)) =
        (none, runOps [Op.drain] (initPool exCfg 0))) :=
  ⟨by
    rw [initPool_exCfg]
    simp [runOps, step, drainStep, waitDrain, serveAllAborted, countResources, initialFields],
   draining_free_empty exCfg _ ⟨0, [Op.drain], rfl⟩ (by
    rw [initPool_exCfg]
    simp [runOps, step, drainStep, waitDrain, serveAllAborted, countResources, initialFields])⟩

/-- C10: a per-request `timeout` of `0` is treated as unset — the deadline
computation `now + (options.timeout || acquireTimeout)` uses JS truthiness,
and `0` is falsy — so the request is identical to one with no per-request
timeout; when the default `acquireTimeout` is also unset the deadline is
`NaN` (`now + undefined`) and the request is classified ageless (appended to
the ageless queue). -/
theorem acquire_timeout_zero_default (cfg : Config) (now : ℤ) (hds : Bool) (id : ℕ) :
    createRequest cfg now (JsNum.num 0) hds id = createRequest cfg now JsNum.undef hds id ∧
    (cfg.acquireTimeout = JsNum.undef →
      (createRequest cfg now (JsNum.num 0) hds id).acquireTimeoutAt = JsNum.nan ∧
      ∀ s : PoolState,
        insertRequestByAcquireTimeout (createRequest cfg now (JsNum.num 0) hds id) s =
        { s with agelessRequests :=
            s.agelessRequests ++ [createRequest cfg now (JsNum.num 0) hds id] }) := by
  constructor
  · rfl
  · intro ht
    have hnan : (createRequest cfg now (JsNum.num 0) hds id).acquireTimeoutAt = JsNum.nan := by
      simp [createRequest, jsOr, jsTruthy, ht, jsAdd]
    refine ⟨hnan, ?_⟩
    intro s
    rw [insertRequestByAcquireTimeout]
    split_ifs with hx
    · rfl
    · rw [hnan] at hx
      exact absurd rfl hx

theorem acquire_timeout_zero_default_witness :
    (createRequest exCfg 7 (JsNum.num 0) true 3 = createRequest exCfg 7 JsNum.undef true 3) ∧
    exCfg.acquireTimeout = JsNum.undef ∧
    (createRequest exCfg 7 (JsNum.num 0) true 3).acquireTimeoutAt = JsNum.nan ∧
    insertRequestByAcquireTimeout (createRequest exCfg 7 (JsNum.num 0) true 3)
        (initialFields exCfg) =
      { initialFields exCfg with
        agelessRequests := (initialFields exCfg).agelessRequests ++
          [createRequest exCfg 7 (JsNum.num 0) true 3] } :=
  ⟨(acquire_timeout_zero_default exCfg 7 true 3).1, rfl,
   ((acquire_timeout_zero_default exCfg 7 true 3).2 rfl).1,
   ((acquire_timeout_zero_default exCfg 7 true 3).2 rfl).2 (initialFields exCfg)⟩

end RPool
